import Mathlib

/-!
Verification of the audio-stitching / script-parsing core of the podcast
generator (src/tools/stitch_tool.py, src/tools/chatterbox_tool.py,
src/streamlit_app.py) against its specification.

The Python sources are shallowly embedded below.  External effects are made
explicit:

* the filesystem seen by `stitch_audio_segments` is a value of type
  `Option (List DirFile)` (`none` models a missing output directory; the
  list order models the OS enumeration order of the recursive scan);
* each WAV segment file is modelled by what the CPython 3.11 `wave` module
  reports for it: `none` when `wave.open(...,'rb')` raises, otherwise the
  header parameters and the byte payload returned by `readframes`.
  `Wave_read._read_fmt_chunk` validates the channel count and sample width
  but not the frame rate, so a readable file may carry `framerate = 0`;
* the `wave` writer used for the stitched output is modelled with the
  raise-conditions of `Wave_write.setparams` (channels ≥ 1,
  1 ≤ sample width ≤ 4, frame rate ≥ 1) and of `Wave_write.close`
  (raises `<param> not specified` when finalised before parameters are set).
  Packing overflow of RIFF header fields (only reachable with multi-GiB
  payloads or pathological channel counts) is not modelled;
* floating point duration arithmetic is modelled with exact rationals, with
  the usual total-division convention `q / 0 = 0`;
* the TTS engine behind `generate_audio_segment` is an opaque oracle.

Python `str` operations (`strip`, `lower`, `split("\n")`, `"\n".join`,
`startswith`) are modelled on `List Char` for the ASCII range in which the
repository uses them.
-/

namespace Podcast

/-! ## Python string helpers -/

/-- Whitespace characters stripped by Python `str.strip()` (ASCII range). -/
def isPyWs (c : Char) : Bool :=
  c == ' ' || c == '\t' || c == '\n' || c == '\r' || c == '\x0b' || c == '\x0c'

/-- Model of Python `str.strip()` on a character list. -/
def pyStripChars (cs : List Char) : List Char :=
  ((cs.dropWhile isPyWs).reverse.dropWhile isPyWs).reverse

/-- Model of Python `str.strip()`. -/
def pyStrip (s : String) : String :=
  String.mk (pyStripChars s.data)

/-- Model of Python `str.split(sep)` for a single-character separator: the
list of parts with the separator removed; always returns at least one
(possibly empty) part, exactly as Python does. -/
def splitSep (sep : Char) : List Char → List (List Char)
  | [] => [[]]
  | c :: cs =>
    match splitSep sep cs with
    | [] => [[c]]
    | h :: t => if c = sep then [] :: h :: t else (c :: h) :: t

/-- Model of Python `str.split("\n")` on a character list. -/
def splitNl : List Char → List (List Char) := splitSep '\n'

/-- Model of Python `"\n".join(...)` on character lists. -/
def joinNl : List (List Char) → List Char
  | [] => []
  | [l] => l
  | l :: ls => l ++ '\n' :: joinNl ls

/-- Model of Python `str.lower()` (ASCII range). -/
def pyLowerChars (cs : List Char) : List Char :=
  cs.map fun c => if 'A' ≤ c ∧ c ≤ 'Z' then Char.ofNat (c.toNat + 32) else c

/-- Model of Python `str.lower()`. -/
def pyLower (s : String) : String :=
  String.mk (pyLowerChars s.data)

/-- Python string comparison: code-point lexicographic order on the
character sequences (`charListLe a b` is `a <= b`). -/
def charListLe : List Char → List Char → Bool
  | [], _ => true
  | _ :: _, [] => false
  | a :: as, b :: bs => if a < b then true else if b < a then false else charListLe as bs

theorem charListLe_cons {x y : Char} {as bs : List Char} :
    charListLe (x :: as) (y :: bs) = true ↔
      x < y ∨ (x = y ∧ charListLe as bs = true) := by
  show (if x < y then true else if y < x then false else charListLe as bs) = true ↔ _
  rcases lt_trichotomy x y with h | h | h
  · simp [h]
  · simp [h, lt_irrefl]
  · simp [h, asymm h, ne_of_gt h]

theorem charListLe_total (a b : List Char) : charListLe a b = true ∨ charListLe b a = true := by
  induction a generalizing b with
  | nil => exact Or.inl rfl
  | cons x as ih =>
    cases b with
    | nil => exact Or.inr rfl
    | cons y bs =>
      rcases lt_trichotomy x y with h | h | h
      · exact Or.inl (charListLe_cons.mpr (Or.inl h))
      · subst h
        rcases ih bs with h' | h'
        · exact Or.inl (charListLe_cons.mpr (Or.inr ⟨rfl, h'⟩))
        · exact Or.inr (charListLe_cons.mpr (Or.inr ⟨rfl, h'⟩))
      · exact Or.inr (charListLe_cons.mpr (Or.inl h))

theorem charListLe_trans {a b c : List Char} (hab : charListLe a b = true)
    (hbc : charListLe b c = true) : charListLe a c = true := by
  induction a generalizing b c with
  | nil => rfl
  | cons x as ih =>
    cases b with
    | nil => simp [charListLe] at hab
    | cons y bs =>
      cases c with
      | nil => simp [charListLe] at hbc
      | cons z cs =>
        rcases charListLe_cons.mp hab with h1 | ⟨h1, h1'⟩ <;>
          rcases charListLe_cons.mp hbc with h2 | ⟨h2, h2'⟩
        · exact charListLe_cons.mpr (Or.inl (lt_trans h1 h2))
        · exact charListLe_cons.mpr (Or.inl (h2 ▸ h1))
        · exact charListLe_cons.mpr (Or.inl (h1 ▸ h2))
        · exact charListLe_cons.mpr (Or.inr ⟨h1.trans h2, ih h1' h2'⟩)

theorem charListLe_antisymm {a b : List Char} (hab : charListLe a b = true)
    (hba : charListLe b a = true) : a = b := by
  induction a generalizing b with
  | nil =>
    cases b with
    | nil => rfl
    | cons y bs => simp [charListLe] at hba
  | cons x as ih =>
    cases b with
    | nil => simp [charListLe] at hab
    | cons y bs =>
      rcases charListLe_cons.mp hab with h1 | ⟨h1, h1'⟩ <;>
        rcases charListLe_cons.mp hba with h2 | ⟨h2, h2'⟩
      · exact absurd h2 (asymm h1)
      · exact absurd h1 (h2 ▸ lt_irrefl x)
      · exact absurd h2 (h1 ▸ lt_irrefl x)
      · rw [h1, ih h1' h2']

/-! ## The filesystem and WAV model -/

/-- What the CPython `wave` module reports when a segment file is opened for
reading: the `getparams` header fields used by the stitcher, and the bytes
returned by `readframes(nframes)`.  The reader validates the channel count
and sample width of genuine files, but the stitcher re-checks the channel
count itself, so all fields are left unconstrained here. -/
structure WavData where
  nchannels : Nat
  sampwidth : Nat
  framerate : Nat
  nframes : Nat
  frames : List Nat
deriving DecidableEq, Repr

/-- One file in the recursively scanned output directory: its path relative
to the output directory, and the result of `wave.open(path, 'rb')` (`none`
when opening raises). -/
structure DirFile where
  relPath : String
  content : Option WavData
deriving DecidableEq, Repr

/-- The final path component, as `pathlib.Path.name`. -/
def fileName (f : DirFile) : List Char :=
  (splitSep '/' f.relPath.data).getLastD []

/-- Whether a file name matches the `rglob("segment_*.wav")` glob: the name
is `segment_` ++ anything ++ `.wav`. -/
def matchesSegPattern (n : List Char) : Bool :=
  decide (n.take 8 = "segment_".data) &&
  decide (n.drop (n.length - 4) = ".wav".data) && decide (12 ≤ n.length)

/-- Sort key order of `sorted(all_wavs, key=lambda p: p.name)`: Python
compares the `p.name` strings by code points. -/
def nameLe (f g : DirFile) : Prop := charListLe (fileName f) (fileName g) = true

instance : DecidableRel nameLe := fun f g => by
  unfold nameLe; infer_instance

instance : IsTotal DirFile nameLe :=
  ⟨fun f g => charListLe_total (fileName f) (fileName g)⟩

instance : IsTrans DirFile nameLe :=
  ⟨fun _ _ _ h h' => charListLe_trans h h'⟩

/-- `str(Path(a) / b)`, the path join used for the reported absolute paths. -/
def pathJoin (a b : String) : String := a ++ "/" ++ b

/-! ## The stitcher embedding (src/tools/stitch_tool.py) -/

/-- The fields of the `Wave_write` object relevant to `stitch_audio_segments`:
`initfp` zero-initialises them and `setparams` fills them one at a time
(`setnchannels`, `setsampwidth`, `setframerate`), so a rejected `setparams`
leaves a partial update behind. -/
structure Writer where
  nch : Nat := 0
  sw : Nat := 0
  fr : Nat := 0
deriving DecidableEq, Repr

/-- `Wave_write.setparams`: applies the setters in order and reports whether
all of them were accepted (`setnchannels` requires ≥ 1 channel,
`setsampwidth` a width in 1..4, `setframerate` a positive rate).  On a raise
the fields already assigned stay assigned, as in the Python object. -/
def wSetparams (w : Writer) (p : WavData) : Writer × Bool :=
  if p.nchannels < 1 then (w, false)
  else
    let w := { w with nch := p.nchannels }
    if p.sampwidth < 1 ∨ 4 < p.sampwidth then (w, false)
    else
      let w := { w with sw := p.sampwidth }
      if p.framerate = 0 then (w, false)
      else ({ w with fr := p.framerate }, true)

/-- State threaded through the per-segment loop of `stitch_audio_segments`:
the writer object, the `params_set` flag, the accumulated duration, the bytes
written to the output stream, the segments whose frames were appended, and
`successful_segments`. -/
structure LoopState where
  w : Writer := {}
  paramsSet : Bool := false
  dur : ℚ := 0
  bytes : List Nat := []
  appended : List DirFile := []
  succ : List DirFile := []

/-- One iteration of the loop over `segment_files` (stitch_tool.py lines
74–99).  A `wave.open` failure, the explicit zero-channel check, a
`setparams` raise, and the `ZeroDivisionError` of `nframes / framerate` are
all caught by the per-file `except` and skip to the next file; note that the
division happens after `writeframes`, so a zero-rate segment's bytes stay in
the output even though it is not counted. -/
def stepSeg (st : LoopState) (f : DirFile) : LoopState :=
  match f.content with
  | none => st
  | some p =>
    if p.nchannels = 0 then st
    else
      let (w1, ok) := if st.paramsSet then (st.w, true) else wSetparams st.w p
      if ok then
        let st1 : LoopState :=
          { st with w := w1, paramsSet := true,
                    bytes := st.bytes ++ p.frames,
                    appended := st.appended ++ [f] }
        if p.framerate = 0 then st1
        else
          { st1 with dur := st1.dur + (p.nframes : ℚ) / (p.framerate : ℚ),
                     succ := st1.succ ++ [f] }
      else { st with w := w1 }

/-- The returned dictionary, with exactly the keys each return site carries. -/
structure StitchResult where
  status : String
  error : Option String := none
  output_path : Option String := none
  total_duration_seconds : Option ℚ := none
  num_segments : Option Nat := none
  segment_files : Option (List String) := none
deriving DecidableEq

def errDict (msg : String) : StitchResult :=
  { status := "error", error := some msg }

/-- Python `round(x, 2)` modelled on rationals. -/
def round2 (q : ℚ) : ℚ := (round (q * 100) : ℤ) / 100

/-- The message of the `wave.Error` raised by `Wave_write.close` when the
stream is finalised before all parameters are set
(`_ensure_header_written`). -/
def unsetParamMsg (w : Writer) : String :=
  if w.nch = 0 then "# channels not specified"
  else if w.sw = 0 then "sample width not specified"
  else "sampling rate not specified"

/-- The observable outcome of one invocation: the returned dictionary plus
the effects on the output stream needed by the claims (`outputFormat` is the
parameter block of the written WAV header — the writer's final state). -/
structure StitchRun where
  result : StitchResult
  outputOpened : Bool
  outputBytes : List Nat
  appended : List DirFile
  succ : List DirFile
  outputFormat : Writer := {}
deriving DecidableEq

/-- The part of `stitch_audio_segments` from the `wave.open(..., 'wb')` on:
runs the loop over the already discovered, sorted and self-excluded list.
When no segment ever set the parameters, the `return` of the inner error
dictionary (lines 101–105) is superseded by the `wave.Error` that
`Wave_write.close` raises in `__exit__`, which the outer handler turns into
the `Internal error during audio stitching: ...` dictionary. -/
def stitchCore (segs : List DirFile) (output_dir output_filename : String) :
    StitchRun :=
  let st := segs.foldl stepSeg {}
  if st.paramsSet then
    { result :=
      { status := "success",
        output_path := some (pathJoin output_dir output_filename),
        total_duration_seconds := some (round2 st.dur),
        num_segments := some st.succ.length,
        segment_files := some (st.succ.map fun f => pathJoin output_dir f.relPath) },
      outputOpened := true, outputBytes := st.bytes,
      appended := st.appended, succ := st.succ, outputFormat := st.w }
  else
    { result := errDict ("Internal error during audio stitching: " ++ unsetParamMsg st.w),
      outputOpened := true, outputBytes := st.bytes,
      appended := st.appended, succ := st.succ, outputFormat := st.w }

/-- Files discovered by `rglob("segment_*.wav")`, in enumeration order. -/
def rawMatches (files : List DirFile) : List DirFile :=
  files.filter fun f => matchesSegPattern (fileName f)

/-- Embedding of `stitch_audio_segments` (stitch_tool.py lines 14–119).
Note the order of operations of the source: discovery and sorting, the
emptiness check, then the self-exclusion of the output path, then the loop. -/
def stitch_audio_segments (fs : Option (List DirFile))
    (output_dir output_filename : String) : StitchRun :=
  match fs with
  | none =>
    { result := errDict ("Output directory does not exist: " ++ output_dir),
      outputOpened := false, outputBytes := [], appended := [], succ := [] }
  | some files =>
    if (List.insertionSort nameLe (rawMatches files)).isEmpty then
      { result := errDict ("No segment_*.wav files found in " ++ output_dir ++
          " or its subdirectories."),
        outputOpened := false, outputBytes := [], appended := [], succ := [] }
    else
      stitchCore ((List.insertionSort nameLe (rawMatches files)).filter
          fun f => f.relPath ≠ output_filename)
        output_dir output_filename

/-! ## Derived facts about the stitching loop -/

/-- The bytes a segment contributes when its frames are appended. -/
def segFrames (f : DirFile) : List Nat :=
  match f.content with
  | some p => p.frames
  | none => []

/-- The exact duration of a segment, `nframes / framerate` as a rational
(zero, by the total-division convention, when the frame rate is zero). -/
def segDur (f : DirFile) : ℚ :=
  match f.content with
  | some p => (p.nframes : ℚ) / (p.framerate : ℚ)
  | none => 0

/-- A file that fixes the output format when it is reached with the
parameters still unset: readable, with a channel count the stitcher's own
check and `setnchannels` accept, a sample width `setsampwidth` accepts and a
frame rate `setframerate` accepts. -/
def acceptsFile (f : DirFile) : Bool :=
  match f.content with
  | none => false
  | some p =>
    decide (1 ≤ p.nchannels) && decide (1 ≤ p.sampwidth) &&
    decide (p.sampwidth ≤ 4) && decide (1 ≤ p.framerate)

/-- The writer parameters a format-fixing file installs. -/
def writerOf (f : DirFile) : Writer :=
  match f.content with
  | some p => { nch := p.nchannels, sw := p.sampwidth, fr := p.framerate }
  | none => {}

theorem wSetparams_eq (w : Writer) (p : WavData) :
    wSetparams w p =
      if p.nchannels < 1 then (w, false)
      else if p.sampwidth < 1 ∨ 4 < p.sampwidth then
        ({ w with nch := p.nchannels }, false)
      else if p.framerate = 0 then
        ({ w with nch := p.nchannels, sw := p.sampwidth }, false)
      else ({ nch := p.nchannels, sw := p.sampwidth, fr := p.framerate }, true) := by
  unfold wSetparams
  split_ifs <;> rfl

theorem stepSeg_paramsSet_true {st : LoopState} (f : DirFile)
    (h : st.paramsSet = true) :
    (stepSeg st f).paramsSet = true ∧ (stepSeg st f).w = st.w := by
  unfold stepSeg
  cases hc : f.content with
  | none => exact ⟨h, rfl⟩
  | some p =>
    by_cases h0 : p.nchannels = 0
    · simp [h0, h]
    · simp only [h0, if_false, h, if_true]
      by_cases hf : p.framerate = 0 <;> simp [hf]

theorem foldl_paramsSet_true {l : List DirFile} {st : LoopState}
    (h : st.paramsSet = true) :
    (l.foldl stepSeg st).paramsSet = true ∧ (l.foldl stepSeg st).w = st.w := by
  induction l generalizing st with
  | nil => exact ⟨h, rfl⟩
  | cons f l ih =>
    obtain ⟨h1, h2⟩ := stepSeg_paramsSet_true f h
    obtain ⟨h3, h4⟩ := ih h1
    exact ⟨h3, h4.trans h2⟩

theorem stepSeg_not_accepted {st : LoopState} {f : DirFile}
    (hst : st.paramsSet = false) (hf : acceptsFile f = false) :
    (stepSeg st f).paramsSet = false ∧
    (stepSeg st f).bytes = st.bytes ∧ (stepSeg st f).appended = st.appended ∧
    (stepSeg st f).succ = st.succ ∧ (stepSeg st f).dur = st.dur ∧
    (stepSeg st f).w.fr = st.w.fr := by
  unfold stepSeg
  cases hc : f.content with
  | none => exact ⟨hst, rfl, rfl, rfl, rfl, rfl⟩
  | some p =>
    unfold acceptsFile at hf
    rw [hc] at hf
    simp only [Bool.and_eq_false_iff, decide_eq_false_iff_not, not_le] at hf
    by_cases h0 : p.nchannels = 0
    · simp [h0, hst]
    · rcases he : wSetparams st.w p with ⟨w1, ok⟩
      have hne : ok = false ∧ w1.fr = st.w.fr := by
        rw [wSetparams_eq] at he
        have h1 : ¬ p.nchannels < 1 := by omega
        rw [if_neg h1] at he
        by_cases h2 : p.sampwidth < 1 ∨ 4 < p.sampwidth
        · rw [if_pos h2] at he
          cases he; exact ⟨rfl, rfl⟩
        · rw [if_neg h2] at he
          have h3 : p.framerate = 0 := by
            rcases hf with ((hf | hf) | hf) | hf
            · exact absurd (Nat.lt_one_iff.mp hf) h0
            · exact absurd (Or.inl hf) h2
            · exact absurd (Or.inr hf) h2
            · exact Nat.lt_one_iff.mp hf
          rw [if_pos h3] at he
          cases he; exact ⟨rfl, rfl⟩
      simp only [h0, if_false, hst, Bool.false_eq_true, if_false, he, hne.1]
      simp [hne.2]

theorem stepSeg_accepted {st : LoopState} {f : DirFile} {p : WavData}
    (hst : st.paramsSet = false) (hc : f.content = some p)
    (hf : acceptsFile f = true) :
    stepSeg st f =
      { st with w := writerOf f, paramsSet := true,
                dur := st.dur + (p.nframes : ℚ) / (p.framerate : ℚ),
                bytes := st.bytes ++ p.frames,
                appended := st.appended ++ [f],
                succ := st.succ ++ [f] } := by
  unfold acceptsFile at hf
  rw [hc] at hf
  simp only [Bool.and_eq_true, decide_eq_true_eq] at hf
  obtain ⟨⟨⟨h1, h2⟩, h3⟩, h4⟩ := hf
  unfold stepSeg
  rw [hc]
  have hfr : ¬ p.framerate = 0 := Nat.pos_iff_ne_zero.mp h4
  have he : wSetparams st.w p =
      ({ nch := p.nchannels, sw := p.sampwidth, fr := p.framerate }, true) := by
    rw [wSetparams_eq, if_neg (Nat.not_lt.mpr h1),
        if_neg (not_or.mpr ⟨Nat.not_lt.mpr h2, Nat.not_lt.mpr h3⟩),
        if_neg hfr]
  simp only [Nat.pos_iff_ne_zero.mp h1, if_false, hst, Bool.false_eq_true,
    he, if_true, hfr, writerOf, hc]

theorem foldl_firstValid {l : List DirFile} {st : LoopState}
    (hst : st.paramsSet = false) :
    (match l.find? acceptsFile with
     | some f => (l.foldl stepSeg st).paramsSet = true ∧
                 (l.foldl stepSeg st).w = writerOf f
     | none => (l.foldl stepSeg st).paramsSet = false) := by
  induction l generalizing st with
  | nil => exact hst
  | cons f l ih =>
    simp only [List.foldl_cons]
    by_cases hf : acceptsFile f = true
    · rw [List.find?_cons_of_pos _ hf]
      cases hc : f.content with
      | none => unfold acceptsFile at hf; rw [hc] at hf; exact absurd hf (by simp)
      | some p =>
        show (l.foldl stepSeg (stepSeg st f)).paramsSet = true ∧
             (l.foldl stepSeg (stepSeg st f)).w = writerOf f
        rw [stepSeg_accepted hst hc hf]
        exact foldl_paramsSet_true rfl
    · rw [List.find?_cons_of_neg _ hf]
      exact ih (stepSeg_not_accepted hst (Bool.eq_false_iff.mpr hf)).1

theorem stepSeg_inv {st : LoopState} (f : DirFile)
    (h1 : st.bytes = (st.appended.map segFrames).flatten)
    (h2 : st.dur = (st.appended.map segDur).sum) :
    (stepSeg st f).bytes = ((stepSeg st f).appended.map segFrames).flatten ∧
    (stepSeg st f).dur = ((stepSeg st f).appended.map segDur).sum := by
  unfold stepSeg
  cases hc : f.content with
  | none => exact ⟨h1, h2⟩
  | some p =>
    have hflat : st.bytes ++ p.frames =
        ((st.appended ++ [f]).map segFrames).flatten := by
      rw [List.map_append, List.flatten_append, ← h1]
      simp [segFrames, hc]
    by_cases h0 : p.nchannels = 0
    · simp only [h0, if_true]; exact ⟨h1, h2⟩
    · simp only [h0, if_false]
      by_cases hps : st.paramsSet = true
      · simp only [hps, if_true]
        by_cases hf0 : p.framerate = 0
        · simp only [hf0, if_true]
          refine ⟨hflat, ?_⟩
          rw [List.map_append, List.sum_append, ← h2]
          simp [segDur, hc, hf0]
        · simp only [hf0, if_false]
          refine ⟨hflat, ?_⟩
          rw [List.map_append, List.sum_append, ← h2]
          simp [segDur, hc]
      · simp only [Bool.not_eq_true] at hps
        simp only [hps, Bool.false_eq_true, if_false]
        rcases he : wSetparams st.w p with ⟨w1, ok⟩
        cases ok with
        | false => simp only [he, Bool.false_eq_true, if_false]; exact ⟨h1, h2⟩
        | true =>
          simp only [he, if_true]
          by_cases hf0 : p.framerate = 0
          · simp only [hf0, if_true]
            refine ⟨hflat, ?_⟩
            rw [List.map_append, List.sum_append, ← h2]
            simp [segDur, hc, hf0]
          · simp only [hf0, if_false]
            refine ⟨hflat, ?_⟩
            rw [List.map_append, List.sum_append, ← h2]
            simp [segDur, hc]

theorem foldl_inv (l : List DirFile) {st : LoopState}
    (h1 : st.bytes = (st.appended.map segFrames).flatten)
    (h2 : st.dur = (st.appended.map segDur).sum) :
    (l.foldl stepSeg st).bytes = ((l.foldl stepSeg st).appended.map segFrames).flatten ∧
    (l.foldl stepSeg st).dur = ((l.foldl stepSeg st).appended.map segDur).sum := by
  induction l generalizing st with
  | nil => exact ⟨h1, h2⟩
  | cons f l ih =>
    obtain ⟨g1, g2⟩ := stepSeg_inv f h1 h2
    exact ih g1 g2

theorem stepSeg_appended (st : LoopState) (f : DirFile) :
    ∃ e, (stepSeg st f).appended = st.appended ++ e ∧ e.Sublist [f] := by
  unfold stepSeg
  cases hc : f.content with
  | none => exact ⟨[], by simp⟩
  | some p =>
    by_cases h0 : p.nchannels = 0
    · exact ⟨[], by simp [h0]⟩
    · simp only [h0, if_false]
      rcases he : (if st.paramsSet = true then (st.w, true) else wSetparams st.w p) with ⟨w1, ok⟩
      cases ok with
      | false => exact ⟨[], by simp⟩
      | true =>
        by_cases hf0 : p.framerate = 0
        · exact ⟨[f], by simp [hf0]⟩
        · exact ⟨[f], by simp [hf0]⟩

theorem foldl_appended (l : List DirFile) (st : LoopState) :
    ∃ d, (l.foldl stepSeg st).appended = st.appended ++ d ∧ d.Sublist l := by
  induction l generalizing st with
  | nil => exact ⟨[], by simp⟩
  | cons f l ih =>
    obtain ⟨e, he, hes⟩ := stepSeg_appended st f
    obtain ⟨d, hd, hds⟩ := ih (stepSeg st f)
    refine ⟨e ++ d, ?_, ?_⟩
    · rw [List.foldl_cons, hd, he, List.append_assoc]
    · have : (e ++ d).Sublist ([f] ++ l) := List.Sublist.append hes hds
      simpa using this

theorem stepSeg_succ_delta (st : LoopState) (f : DirFile) :
    ∃ e, (stepSeg st f).succ = st.succ ++ e ∧ e.Sublist [f] := by
  unfold stepSeg
  cases hc : f.content with
  | none => exact ⟨[], by simp⟩
  | some p =>
    by_cases h0 : p.nchannels = 0
    · exact ⟨[], by simp [h0]⟩
    · simp only [h0, if_false]
      rcases he : (if st.paramsSet = true then (st.w, true) else wSetparams st.w p) with ⟨w1, ok⟩
      cases ok with
      | false => exact ⟨[], by simp⟩
      | true =>
        by_cases hf0 : p.framerate = 0
        · exact ⟨[], by simp [hf0]⟩
        · exact ⟨[f], by simp [hf0]⟩

theorem foldl_succ_sublist (l : List DirFile) (st : LoopState) :
    ∃ d, (l.foldl stepSeg st).succ = st.succ ++ d ∧ d.Sublist l := by
  induction l generalizing st with
  | nil => exact ⟨[], by simp⟩
  | cons f l ih =>
    obtain ⟨e, he, hes⟩ := stepSeg_succ_delta st f
    obtain ⟨d, hd, hds⟩ := ih (stepSeg st f)
    refine ⟨e ++ d, ?_, ?_⟩
    · rw [List.foldl_cons, hd, he, List.append_assoc]
    · have : (e ++ d).Sublist ([f] ++ l) := List.Sublist.append hes hds
      simpa using this

theorem foldl_not_set {l : List DirFile} {st : LoopState}
    (hst : st.paramsSet = false) (h : (l.foldl stepSeg st).paramsSet = false) :
    (l.foldl stepSeg st).bytes = st.bytes ∧
    (l.foldl stepSeg st).appended = st.appended ∧
    (l.foldl stepSeg st).succ = st.succ ∧
    (l.foldl stepSeg st).dur = st.dur ∧
    (l.foldl stepSeg st).w.fr = st.w.fr := by
  induction l generalizing st with
  | nil => exact ⟨rfl, rfl, rfl, rfl, rfl⟩
  | cons f l ih =>
    rw [List.foldl_cons] at h ⊢
    by_cases hf : acceptsFile f = true
    · cases hc : f.content with
      | none => unfold acceptsFile at hf; rw [hc] at hf; exact absurd hf (by simp)
      | some p =>
        rw [stepSeg_accepted hst hc hf] at h
        exact absurd (foldl_paramsSet_true rfl).1 (by rw [h]; simp)
    · obtain ⟨g0, g1, g2, g3, g4, g5⟩ :=
        stepSeg_not_accepted hst (Bool.eq_false_iff.mpr hf)
      obtain ⟨i1, i2, i3, i4, i5⟩ := ih g0 h
      exact ⟨i1.trans g1, i2.trans g2, i3.trans g3, i4.trans g4, i5.trans g5⟩

/-- The list of segments that complete the per-file loop body
(`successful_segments`), computed directly from the discovered list: a
segment is kept when it is readable with a non-zero channel count and, if
the output format is already fixed, its frame rate is non-zero; the segment
that fixes the format must additionally be accepted by `setparams`. -/
def processedSpec (fmtSet : Bool) : List DirFile → List DirFile
  | [] => []
  | f :: l =>
    match f.content with
    | none => processedSpec fmtSet l
    | some p =>
      if p.nchannels = 0 then processedSpec fmtSet l
      else if fmtSet then
        (if p.framerate = 0 then processedSpec fmtSet l
         else f :: processedSpec fmtSet l)
      else if acceptsFile f then f :: processedSpec true l
      else processedSpec false l

theorem foldl_succ_spec (l : List DirFile) (st : LoopState) :
    (l.foldl stepSeg st).succ = st.succ ++ processedSpec st.paramsSet l := by
  induction l generalizing st with
  | nil => simp [processedSpec]
  | cons f l ih =>
    rw [List.foldl_cons]
    unfold processedSpec
    cases hc : f.content with
    | none =>
      have hstep : stepSeg st f = st := by unfold stepSeg; rw [hc]
      rw [hstep, ih]
    | some p =>
      by_cases h0 : p.nchannels = 0
      · have hstep : stepSeg st f = st := by unfold stepSeg; rw [hc]; simp [h0]
        rw [hstep, ih]
        simp [h0]
      · simp only [h0, if_false]
        by_cases hps : st.paramsSet = true
        · by_cases hf0 : p.framerate = 0
          · have hstep : stepSeg st f =
                { st with bytes := st.bytes ++ p.frames,
                          appended := st.appended ++ [f] } := by
              unfold stepSeg; rw [hc]; simp [h0, hps, hf0]
            rw [hstep, ih]
            simp [hps, hf0]
          · have hstep : stepSeg st f =
                { st with bytes := st.bytes ++ p.frames,
                          appended := st.appended ++ [f],
                          dur := st.dur + (p.nframes : ℚ) / (p.framerate : ℚ),
                          succ := st.succ ++ [f] } := by
              unfold stepSeg; rw [hc]; simp [h0, hps, hf0]
            rw [hstep, ih]
            simp [hps, hf0]
        · simp only [Bool.not_eq_true] at hps
          simp only [hps, Bool.false_eq_true, if_false]
          by_cases hf : acceptsFile f = true
          · rw [stepSeg_accepted hps hc hf, ih]
            simp [hf]
          · obtain ⟨g0, _, _, g3, _, _⟩ :=
              stepSeg_not_accepted hps (Bool.eq_false_iff.mpr hf)
            rw [ih, g0, g3, if_neg hf]

/-- When discovery finds at least one match, `stitch_audio_segments` is the
core loop applied to the sorted, self-excluded list. -/
theorem stitch_eq_core {files : List DirFile} {od fn : String}
    (h : rawMatches files ≠ []) :
    stitch_audio_segments (some files) od fn =
      stitchCore ((List.insertionSort nameLe (rawMatches files)).filter
        fun f => f.relPath ≠ fn) od fn := by
  have hlen : (List.insertionSort nameLe (rawMatches files)) ≠ [] := by
    intro he
    have hp := List.perm_insertionSort nameLe (rawMatches files)
    rw [he] at hp
    exact h (List.eq_nil_of_length_eq_zero hp.length_eq.symm)
  simp only [stitch_audio_segments]
  rw [if_neg (by simpa [List.isEmpty_eq_false] using hlen)]

/-- When discovery finds nothing, the no-segments error is returned before
the output stream is opened. -/
theorem stitch_empty {files : List DirFile} {od fn : String}
    (h : rawMatches files = []) :
    stitch_audio_segments (some files) od fn =
      { result := errDict ("No segment_*.wav files found in " ++ od ++
          " or its subdirectories."),
        outputOpened := false, outputBytes := [], appended := [], succ := [] } := by
  simp [stitch_audio_segments, h]

theorem stitchCore_pos {segs : List DirFile} {od fn : String}
    (h : (segs.foldl stepSeg ({} : LoopState)).paramsSet = true) :
    stitchCore segs od fn =
      { result :=
        { status := "success",
          output_path := some (pathJoin od fn),
          total_duration_seconds := some (round2 (segs.foldl stepSeg {}).dur),
          num_segments := some (segs.foldl stepSeg {}).succ.length,
          segment_files := some ((segs.foldl stepSeg {}).succ.map
            fun f => pathJoin od f.relPath) },
        outputOpened := true, outputBytes := (segs.foldl stepSeg {}).bytes,
        appended := (segs.foldl stepSeg {}).appended,
        succ := (segs.foldl stepSeg {}).succ,
        outputFormat := (segs.foldl stepSeg {}).w } := by
  simp [stitchCore, h]

theorem stitchCore_neg {segs : List DirFile} {od fn : String}
    (h : ¬ (segs.foldl stepSeg ({} : LoopState)).paramsSet = true) :
    stitchCore segs od fn =
      { result := errDict ("Internal error during audio stitching: " ++
          unsetParamMsg (segs.foldl stepSeg {}).w),
        outputOpened := true, outputBytes := (segs.foldl stepSeg {}).bytes,
        appended := (segs.foldl stepSeg {}).appended,
        succ := (segs.foldl stepSeg {}).succ,
        outputFormat := (segs.foldl stepSeg {}).w } := by
  simp [stitchCore, h]

theorem ne_of_data_head {a b : String} {x y : Char} {as bs : List Char}
    (ha : a.data = x :: as) (hb : b.data = y :: bs) (hxy : x ≠ y) : a ≠ b := by
  intro h
  rw [h, hb] at ha
  exact hxy (List.head_eq_of_cons_eq ha.symm)

/-! ## Claim C10 -/

/-- Claim C10 (confirmed): `stitch_audio_segments` is total — for every
output directory string, output filename and filesystem state it returns a
dictionary whose `status` is `success` or `error`; every error result
carries an `error` message, and every success result carries `output_path`,
`total_duration_seconds`, `num_segments` and `segment_files` (and no
`error`).  The outer `try/except Exception` of the source is what makes the
embedding total. -/
theorem c10_stitch_totality (fs : Option (List DirFile)) (od fn : String) :
    ((stitch_audio_segments fs od fn).result.status = "success" ∨
     (stitch_audio_segments fs od fn).result.status = "error") ∧
    ((stitch_audio_segments fs od fn).result.status = "error" →
      ∃ m, (stitch_audio_segments fs od fn).result.error = some m) ∧
    ((stitch_audio_segments fs od fn).result.status = "success" →
      (stitch_audio_segments fs od fn).result.error = none ∧
      (stitch_audio_segments fs od fn).result.output_path.isSome = true ∧
      (stitch_audio_segments fs od fn).result.total_duration_seconds.isSome = true ∧
      (stitch_audio_segments fs od fn).result.num_segments.isSome = true ∧
      (stitch_audio_segments fs od fn).result.segment_files.isSome = true) := by
  have hne : ¬ ("error" : String) = "success" := by decide
  cases fs with
  | none =>
    exact ⟨Or.inr rfl, fun _ => ⟨_, rfl⟩, fun hs => absurd hs hne⟩
  | some files =>
    by_cases hr : rawMatches files = []
    · rw [stitch_empty hr]
      exact ⟨Or.inr rfl, fun _ => ⟨_, rfl⟩, fun hs => absurd hs hne⟩
    · rw [stitch_eq_core hr]
      by_cases hps : (((List.insertionSort nameLe (rawMatches files)).filter
          fun f => f.relPath ≠ fn).foldl stepSeg {}).paramsSet = true
      · rw [stitchCore_pos hps]
        exact ⟨Or.inl rfl, fun hs => absurd hs.symm hne,
          fun _ => ⟨rfl, rfl, rfl, rfl, rfl⟩⟩
      · rw [stitchCore_neg hps]
        exact ⟨Or.inr rfl, fun _ => ⟨_, rfl⟩, fun hs => absurd hs hne⟩

/-- Witness for C10 at a concrete input. -/
theorem c10_stitch_totality_witness :
    (stitch_audio_segments none "output" "final_podcast.wav").result.status = "error" ∧
    ∃ m, (stitch_audio_segments none "output" "final_podcast.wav").result.error = some m :=
  ⟨by decide, (c10_stitch_totality none "output" "final_podcast.wav").2.1 (by decide)⟩

/-! ## Claim C5 -/

/-- Claim C5 (counterexample): the claim states that the no-segments error
fires exactly when the self-excluded discovery set is empty and that no
output file is opened then.  With `output_filename = "segment_000_host.wav"`
and a directory holding exactly that one segment, the post-exclusion set is
empty, yet the source checks emptiness before the exclusion: the run opens
(and truncates) the output and fails with the internal error from closing
the parameterless writer, not with the no-segments error. -/
theorem c5_counterexample :
    ((List.insertionSort nameLe
        (rawMatches [(⟨"segment_000_host.wav", none⟩ : DirFile)])).filter
        (fun f => f.relPath ≠ "segment_000_host.wav")) = [] ∧
    (stitch_audio_segments (some [(⟨"segment_000_host.wav", none⟩ : DirFile)]) "output"
        "segment_000_host.wav").result =
      errDict "Internal error during audio stitching: # channels not specified" ∧
    (stitch_audio_segments (some [(⟨"segment_000_host.wav", none⟩ : DirFile)]) "output"
        "segment_000_host.wav").result ≠
      errDict "No segment_*.wav files found in output or its subdirectories." ∧
    (stitch_audio_segments (some [(⟨"segment_000_host.wav", none⟩ : DirFile)]) "output"
        "segment_000_host.wav").outputOpened = true := by
  refine ⟨by decide, by decide, by decide, by decide⟩

/-- Claim C5 (amended): the no-segments error is returned exactly when the
*pre-exclusion* discovery (the raw `rglob` match set) is empty — the
self-exclusion happens only after the emptiness check — and in that case no
output file is opened for writing. -/
theorem c5_empty_discovery (files : List DirFile) (od fn : String) :
    ((stitch_audio_segments (some files) od fn).result =
       errDict ("No segment_*.wav files found in " ++ od ++ " or its subdirectories.")
     ↔ rawMatches files = []) ∧
    (rawMatches files = [] →
      (stitch_audio_segments (some files) od fn).outputOpened = false) := by
  by_cases hr : rawMatches files = []
  · rw [stitch_empty hr]
    exact ⟨⟨fun _ => hr, fun _ => rfl⟩, fun _ => rfl⟩
  · refine ⟨⟨fun heq => ?_, fun h => absurd h hr⟩, fun h => absurd h hr⟩
    exfalso
    rw [stitch_eq_core hr] at heq
    by_cases hps : (((List.insertionSort nameLe (rawMatches files)).filter
        fun f => f.relPath ≠ fn).foldl stepSeg {}).paramsSet = true
    · rw [stitchCore_pos hps] at heq
      have hst := congrArg StitchResult.status heq
      exact absurd hst (show ¬ ("success" : String) = "error" by decide)
    · rw [stitchCore_neg hps] at heq
      have herr := congrArg StitchResult.error heq
      simp only [errDict, Option.some.injEq] at herr
      have ha : ("Internal error during audio stitching: " ++
          unsetParamMsg (((List.insertionSort nameLe (rawMatches files)).filter
            fun f => f.relPath ≠ fn).foldl stepSeg {}).w).data =
          'I' :: ("nternal error during audio stitching: ".data ++
            (unsetParamMsg (((List.insertionSort nameLe (rawMatches files)).filter
              fun f => f.relPath ≠ fn).foldl stepSeg {}).w).data) := by
        rw [String.data_append]; rfl
      have hb : ("No segment_*.wav files found in " ++ od ++
          " or its subdirectories.").data =
          'N' :: ("o segment_*.wav files found in ".data ++ od.data ++
            " or its subdirectories.".data) := by
        rw [String.data_append, String.data_append]; rfl
      exact ne_of_data_head ha hb (by decide) herr

/-- Witness for the amended C5 at a concrete input. -/
theorem c5_empty_discovery_witness :
    rawMatches ([] : List DirFile) = [] ∧
    (stitch_audio_segments (some ([] : List DirFile)) "output"
      "final_podcast.wav").outputOpened = false :=
  ⟨by decide, (c5_empty_discovery [] "output" "final_podcast.wav").2 (by decide)⟩

/-! ## Claim C6 -/

/-- Claim C6 (counterexample): with one discovered but unreadable segment,
every discovered segment is malformed and no segment sets the output format;
the claim says the result is the `NoValidSegmentsError` case reporting that
no valid wave segments were found, but the returned dictionary carries the
internal-error message instead: the `return` of the no-valid-segments
dictionary is superseded by the `wave.Error` raised when the parameterless
writer is closed on `with`-exit. -/
theorem c6_counterexample :
    (stitch_audio_segments (some [(⟨"segment_000_host.wav", none⟩ : DirFile)])
        "output" "final_podcast.wav").result.status = "error" ∧
    (stitch_audio_segments (some [(⟨"segment_000_host.wav", none⟩ : DirFile)])
        "output" "final_podcast.wav").result.error =
      some "Internal error during audio stitching: # channels not specified" ∧
    (stitch_audio_segments (some [(⟨"segment_000_host.wav", none⟩ : DirFile)])
        "output" "final_podcast.wav").result.error ≠
      some "Could not set audio parameters. No valid wave segments were found." := by
  refine ⟨by decide, by decide, by decide⟩

/-- Claim C6 (amended): when at least one segment is discovered but none
ever sets the output format, the stitch still returns an error result and
touches no segment file — but the reported message is the internal-error one
produced by finalising the parameterless output stream (`# channels not
specified` / `sample width not specified` / `sampling rate not specified`),
not the `No valid wave segments were found` message of the dead inner
return; nothing is appended to the output. -/
theorem c6_all_invalid (files : List DirFile) (od fn : String)
    (hne : rawMatches files ≠ [])
    (hall : ∀ f ∈ (List.insertionSort nameLe (rawMatches files)).filter
        (fun f => f.relPath ≠ fn), acceptsFile f = false) :
    ∃ m, (m = "# channels not specified" ∨ m = "sample width not specified" ∨
          m = "sampling rate not specified") ∧
      (stitch_audio_segments (some files) od fn).result =
        errDict ("Internal error during audio stitching: " ++ m) ∧
      (stitch_audio_segments (some files) od fn).appended = [] ∧
      (stitch_audio_segments (some files) od fn).outputBytes = [] := by
  rw [stitch_eq_core hne]
  have hfind : ((List.insertionSort nameLe (rawMatches files)).filter
      (fun f => f.relPath ≠ fn)).find? acceptsFile = none :=
    List.find?_eq_none.mpr (fun x hx => by rw [hall x hx]; simp)
  have hps := @foldl_firstValid ((List.insertionSort nameLe (rawMatches files)).filter
      (fun f => f.relPath ≠ fn)) {} rfl
  rw [hfind] at hps
  obtain ⟨b1, b2, _, _, _⟩ := foldl_not_set rfl hps
  rw [stitchCore_neg (by rw [hps]; exact Bool.false_ne_true)]
  refine ⟨unsetParamMsg (((List.insertionSort nameLe (rawMatches files)).filter
      (fun f => f.relPath ≠ fn)).foldl stepSeg {}).w, ?_, rfl, b2, b1⟩
  unfold unsetParamMsg
  split_ifs <;> simp

/-- Witness for the amended C6 at a concrete input. -/
theorem c6_all_invalid_witness :
    ∃ m, (m = "# channels not specified" ∨ m = "sample width not specified" ∨
          m = "sampling rate not specified") ∧
      (stitch_audio_segments (some [(⟨"segment_003_host.wav", none⟩ : DirFile)])
          "out" "final_podcast.wav").result =
        errDict ("Internal error during audio stitching: " ++ m) ∧
      (stitch_audio_segments (some [(⟨"segment_003_host.wav", none⟩ : DirFile)])
          "out" "final_podcast.wav").appended = [] ∧
      (stitch_audio_segments (some [(⟨"segment_003_host.wav", none⟩ : DirFile)])
          "out" "final_podcast.wav").outputBytes = [] :=
  c6_all_invalid [⟨"segment_003_host.wav", none⟩] "out" "final_podcast.wav"
    (by decide) (by decide)

/-! ## Claim C1 -/

/-- The specification's notion of a valid segment — readable with a non-zero
channel count — used to state claims C1 and C3 exactly as written, for
comparison with the behaviour of the code. -/
def specValidSegment (f : DirFile) : Bool :=
  match f.content with
  | some p => decide (p.nchannels ≠ 0)
  | none => false

/-- Claim C1 (counterexample): a directory whose first segment (in sorted
order) is readable with one channel but frame rate zero, followed by a
segment with frame rate 8000.  The first readable non-zero-channel segment
is the first file, but `Wave_write.setparams` rejects its zero frame rate
(the `wave` reader does not validate the frame rate, so such a file is
readable), so the output format is fixed by the second file instead and
differs from the first file's parameters. -/
theorem c1_counterexample :
    ((List.insertionSort nameLe (rawMatches
        [(⟨"segment_000_host.wav", some ⟨1, 2, 0, 4, [0, 0]⟩⟩ : DirFile),
         ⟨"segment_001_host.wav", some ⟨1, 2, 8000, 4, [1, 2]⟩⟩])).filter
        (fun f => f.relPath ≠ "final_podcast.wav")).find? specValidSegment =
      some ⟨"segment_000_host.wav", some ⟨1, 2, 0, 4, [0, 0]⟩⟩ ∧
    (stitch_audio_segments (some
        [(⟨"segment_000_host.wav", some ⟨1, 2, 0, 4, [0, 0]⟩⟩ : DirFile),
         ⟨"segment_001_host.wav", some ⟨1, 2, 8000, 4, [1, 2]⟩⟩])
        "output" "final_podcast.wav").outputFormat =
      { nch := 1, sw := 2, fr := 8000 } ∧
    writerOf ⟨"segment_000_host.wav", some ⟨1, 2, 0, 4, [0, 0]⟩⟩ =
      { nch := 1, sw := 2, fr := 0 } ∧
    (stitch_audio_segments (some
        [(⟨"segment_000_host.wav", some ⟨1, 2, 0, 4, [0, 0]⟩⟩ : DirFile),
         ⟨"segment_001_host.wav", some ⟨1, 2, 8000, 4, [1, 2]⟩⟩])
        "output" "final_podcast.wav").outputFormat ≠
      writerOf ⟨"segment_000_host.wav", some ⟨1, 2, 0, 4, [0, 0]⟩⟩ := by
  refine ⟨by decide, by decide, by decide, by decide⟩

/-- Claim C1 (amended): the stitched output's WAV parameters equal those of
the first segment, in sorted filename order after self-exclusion, that is
readable, has a non-zero channel count, *and* is accepted by the output
writer's `setparams` (sample width 1..4 and non-zero frame rate) — even when
segments earlier in that order are malformed, unreadable or rejected by the
writer and were skipped. -/
theorem c1_format_fixing (files : List DirFile) (od fn : String) (f : DirFile)
    (hne : rawMatches files ≠ [])
    (hv : ((List.insertionSort nameLe (rawMatches files)).filter
        (fun g => g.relPath ≠ fn)).find? acceptsFile = some f) :
    (stitch_audio_segments (some files) od fn).result.status = "success" ∧
    (stitch_audio_segments (some files) od fn).outputFormat = writerOf f := by
  rw [stitch_eq_core hne]
  have h := @foldl_firstValid ((List.insertionSort nameLe (rawMatches files)).filter
      (fun g => g.relPath ≠ fn)) {} rfl
  rw [hv] at h
  obtain ⟨h1, h2⟩ := h
  rw [stitchCore_pos h1]
  exact ⟨rfl, h2⟩

/-- Witness for the amended C1 at a concrete input. -/
theorem c1_format_fixing_witness :
    (stitch_audio_segments (some [(⟨"segment_000_host.wav",
        some ⟨2, 2, 44100, 100, [5, 6]⟩⟩ : DirFile)])
      "output" "final_podcast.wav").result.status = "success" ∧
    (stitch_audio_segments (some [(⟨"segment_000_host.wav",
        some ⟨2, 2, 44100, 100, [5, 6]⟩⟩ : DirFile)])
      "output" "final_podcast.wav").outputFormat =
      writerOf ⟨"segment_000_host.wav", some ⟨2, 2, 44100, 100, [5, 6]⟩⟩ :=
  c1_format_fixing [⟨"segment_000_host.wav", some ⟨2, 2, 44100, 100, [5, 6]⟩⟩]
    "output" "final_podcast.wav"
    ⟨"segment_000_host.wav", some ⟨2, 2, 44100, 100, [5, 6]⟩⟩
    (by decide) (by decide)

/-! ## Claim C3 -/

/-- Claim C3 (counterexample): a directory with one discovered segment, zero
of which are malformed in the claim's sense (unreadable or zero channels) —
so K = 0 < 1 = N — for which the stitch nevertheless fails: the single
segment is readable with one channel but has frame rate zero, which the
writer's `setparams` rejects, so no format is ever set. -/
theorem c3_counterexample :
    (rawMatches [(⟨"segment_000_host.wav", some ⟨1, 2, 0, 4, [0, 0]⟩⟩ : DirFile)]).length = 1 ∧
    (rawMatches [(⟨"segment_000_host.wav", some ⟨1, 2, 0, 4, [0, 0]⟩⟩ : DirFile)]).filter
      (fun g => !(specValidSegment g)) = [] ∧
    (stitch_audio_segments (some [(⟨"segment_000_host.wav",
        some ⟨1, 2, 0, 4, [0, 0]⟩⟩ : DirFile)])
      "output" "final_podcast.wav").result.status = "error" := by
  refine ⟨by decide, by decide, by decide⟩

/-- Claim C3 (amended): whenever some discovered segment fixes the output
format, the stitch succeeds, and `segment_files` / `num_segments` report
exactly the discovered segments that complete the loop body
(`processedSpec`), in sorted order — where a segment is skipped when it is
unreadable, has zero channels, is rejected by `setparams` while the format
is unset, or has zero frame rate (division by zero) after the format is
fixed.  K counts those skipped segments, so `num_segments = N − K`. -/
theorem c3_partial_tolerance (files : List DirFile) (od fn : String) (f₀ : DirFile)
    (hne : rawMatches files ≠ [])
    (hv : ((List.insertionSort nameLe (rawMatches files)).filter
        (fun g => g.relPath ≠ fn)).find? acceptsFile = some f₀) :
    (stitch_audio_segments (some files) od fn).result.status = "success" ∧
    (stitch_audio_segments (some files) od fn).succ =
      processedSpec false ((List.insertionSort nameLe (rawMatches files)).filter
        (fun g => g.relPath ≠ fn)) ∧
    (stitch_audio_segments (some files) od fn).result.num_segments =
      some (processedSpec false ((List.insertionSort nameLe (rawMatches files)).filter
        (fun g => g.relPath ≠ fn))).length ∧
    (stitch_audio_segments (some files) od fn).result.segment_files =
      some ((processedSpec false ((List.insertionSort nameLe (rawMatches files)).filter
        (fun g => g.relPath ≠ fn))).map fun g => pathJoin od g.relPath) := by
  rw [stitch_eq_core hne]
  have h := @foldl_firstValid ((List.insertionSort nameLe (rawMatches files)).filter
      (fun g => g.relPath ≠ fn)) {} rfl
  rw [hv] at h
  rw [stitchCore_pos h.1]
  have hs : (((List.insertionSort nameLe (rawMatches files)).filter
      (fun g => g.relPath ≠ fn)).foldl stepSeg {}).succ =
      processedSpec false ((List.insertionSort nameLe (rawMatches files)).filter
        (fun g => g.relPath ≠ fn)) := by
    simpa using foldl_succ_spec ((List.insertionSort nameLe (rawMatches files)).filter
      (fun g => g.relPath ≠ fn)) {}
  exact ⟨rfl, hs, by rw [hs], by rw [hs]⟩

/-- Witness for the amended C3 at a concrete input: two good segments and a
zero-channel one in between. -/
theorem c3_partial_tolerance_witness :
    (stitch_audio_segments (some
        [(⟨"segment_000_host.wav", some ⟨1, 2, 8000, 4, [1, 2]⟩⟩ : DirFile),
         ⟨"segment_001_expert.wav", some ⟨0, 2, 8000, 4, [3]⟩⟩,
         ⟨"segment_002_host.wav", some ⟨1, 2, 8000, 8, [4, 5]⟩⟩])
      "output" "final_podcast.wav").result.status = "success" ∧
    (stitch_audio_segments (some
        [(⟨"segment_000_host.wav", some ⟨1, 2, 8000, 4, [1, 2]⟩⟩ : DirFile),
         ⟨"segment_001_expert.wav", some ⟨0, 2, 8000, 4, [3]⟩⟩,
         ⟨"segment_002_host.wav", some ⟨1, 2, 8000, 8, [4, 5]⟩⟩])
      "output" "final_podcast.wav").succ =
      processedSpec false ((List.insertionSort nameLe (rawMatches
        [(⟨"segment_000_host.wav", some ⟨1, 2, 8000, 4, [1, 2]⟩⟩ : DirFile),
         ⟨"segment_001_expert.wav", some ⟨0, 2, 8000, 4, [3]⟩⟩,
         ⟨"segment_002_host.wav", some ⟨1, 2, 8000, 8, [4, 5]⟩⟩])).filter
        (fun g => g.relPath ≠ "final_podcast.wav")) ∧
    processedSpec false ((List.insertionSort nameLe (rawMatches
        [(⟨"segment_000_host.wav", some ⟨1, 2, 8000, 4, [1, 2]⟩⟩ : DirFile),
         ⟨"segment_001_expert.wav", some ⟨0, 2, 8000, 4, [3]⟩⟩,
         ⟨"segment_002_host.wav", some ⟨1, 2, 8000, 8, [4, 5]⟩⟩])).filter
        (fun g => g.relPath ≠ "final_podcast.wav")) =
      [⟨"segment_000_host.wav", some ⟨1, 2, 8000, 4, [1, 2]⟩⟩,
       ⟨"segment_002_host.wav", some ⟨1, 2, 8000, 8, [4, 5]⟩⟩] :=
  ⟨(c3_partial_tolerance
      [⟨"segment_000_host.wav", some ⟨1, 2, 8000, 4, [1, 2]⟩⟩,
       ⟨"segment_001_expert.wav", some ⟨0, 2, 8000, 4, [3]⟩⟩,
       ⟨"segment_002_host.wav", some ⟨1, 2, 8000, 8, [4, 5]⟩⟩]
      "output" "final_podcast.wav"
      ⟨"segment_000_host.wav", some ⟨1, 2, 8000, 4, [1, 2]⟩⟩
      (by decide) (by decide)).1,
   (c3_partial_tolerance
      [⟨"segment_000_host.wav", some ⟨1, 2, 8000, 4, [1, 2]⟩⟩,
       ⟨"segment_001_expert.wav", some ⟨0, 2, 8000, 4, [3]⟩⟩,
       ⟨"segment_002_host.wav", some ⟨1, 2, 8000, 8, [4, 5]⟩⟩]
      "output" "final_podcast.wav"
      ⟨"segment_000_host.wav", some ⟨1, 2, 8000, 4, [1, 2]⟩⟩
      (by decide) (by decide)).2.1,
   by decide⟩

/-! ## Claim C4 -/

theorem round2_within (q : ℚ) : |round2 q - q| ≤ 1 / 100 := by
  unfold round2
  have h := abs_sub_round (q * 100)
  rw [abs_sub_comm] at h
  have heq : (round (q * 100) : ℚ) / 100 - q = ((round (q * 100) : ℚ) - q * 100) / 100 := by
    ring
  rw [heq, abs_div, abs_of_pos (show (0 : ℚ) < 100 by norm_num),
    div_le_iff₀ (show (0 : ℚ) < 100 by norm_num)]
  calc |(round (q * 100) : ℚ) - q * 100| ≤ 1 / 2 := h
    _ ≤ 1 / 100 * 100 := by norm_num

/-- Claim C4 (confirmed): for every successful stitch, the returned
`total_duration_seconds` is the sum of `nframes / framerate` over exactly
the segments whose frames were appended to the output, rounded to two
decimal places, and the rounded value is within 1/100 of the exact sum.
The duration arithmetic is modelled in exact rationals with the `q / 0 = 0`
convention; a segment appended with zero frame rate contributes zero to the
sum, matching the code, which skips it via the caught `ZeroDivisionError`
after its frames are written. -/
theorem c4_duration (fs : Option (List DirFile)) (od fn : String)
    (h : (stitch_audio_segments fs od fn).result.status = "success") :
    (stitch_audio_segments fs od fn).result.total_duration_seconds =
      some (round2 (((stitch_audio_segments fs od fn).appended.map segDur).sum)) ∧
    |round2 (((stitch_audio_segments fs od fn).appended.map segDur).sum) -
      ((stitch_audio_segments fs od fn).appended.map segDur).sum| ≤ 1 / 100 := by
  refine ⟨?_, round2_within _⟩
  cases fs with
  | none => exact absurd h (show ¬ ("error" : String) = "success" by decide)
  | some files =>
    by_cases hr : rawMatches files = []
    · rw [stitch_empty hr] at h
      exact absurd h (show ¬ ("error" : String) = "success" by decide)
    · rw [stitch_eq_core hr] at h ⊢
      by_cases hps : (((List.insertionSort nameLe (rawMatches files)).filter
          fun f => f.relPath ≠ fn).foldl stepSeg {}).paramsSet = true
      · rw [stitchCore_pos hps]
        have hinv := @foldl_inv ((List.insertionSort nameLe (rawMatches files)).filter
          fun f => f.relPath ≠ fn) {} rfl rfl
        rw [hinv.2]
      · rw [stitchCore_neg hps] at h
        exact absurd h (show ¬ ("error" : String) = "success" by decide)

/-- Witness for C4 at a concrete input: one 2-second segment. -/
theorem c4_duration_witness :
    (stitch_audio_segments (some [(⟨"segment_000_host.wav",
        some ⟨1, 2, 8000, 16000, [7, 7]⟩⟩ : DirFile)])
      "output" "final_podcast.wav").result.total_duration_seconds =
      some (round2 (((stitch_audio_segments (some [(⟨"segment_000_host.wav",
        some ⟨1, 2, 8000, 16000, [7, 7]⟩⟩ : DirFile)])
      "output" "final_podcast.wav").appended.map segDur).sum)) :=
  (c4_duration (some [⟨"segment_000_host.wav", some ⟨1, 2, 8000, 16000, [7, 7]⟩⟩])
    "output" "final_podcast.wav" (by decide)).1

/-! ## Claim C7 -/

theorem orderedInsert_of_forall_le {α : Type} {r : α → α → Prop} [DecidableRel r]
    {a : α} {l : List α} (h : ∀ b ∈ l, r a b) :
    List.orderedInsert r a l = a :: l := by
  cases l with
  | nil => rfl
  | cons b t =>
    unfold List.orderedInsert
    rw [if_pos (h b (List.mem_cons_self b t))]

theorem orderedInsert_filter {α : Type} {r : α → α → Prop} [DecidableRel r]
    [IsTotal α r] [IsTrans α r] (p : α → Bool) (a : α) :
    ∀ {l : List α}, l.Sorted r →
      (List.orderedInsert r a l).filter p =
        if p a then List.orderedInsert r a (l.filter p) else l.filter p := by
  intro l
  induction l with
  | nil =>
    intro _
    by_cases hpa : p a <;> simp [List.orderedInsert, hpa]
  | cons b t ih =>
    intro hs
    obtain ⟨hb, ht⟩ := List.sorted_cons.mp hs
    by_cases hab : r a b
    · rw [List.orderedInsert, if_pos hab]
      have hall : ∀ x ∈ (b :: t).filter p, r a x := by
        intro x hx
        rcases List.mem_cons.mp (List.mem_of_mem_filter hx) with h | h
        · exact h ▸ hab
        · exact Trans.trans hab (hb x h)
      by_cases hpa : p a
      · rw [if_pos hpa, orderedInsert_of_forall_le hall]
        rw [List.filter_cons_of_pos (by simpa using hpa)]
      · rw [if_neg hpa, List.filter_cons_of_neg (by simpa using hpa)]
    · rw [List.orderedInsert, if_neg hab]
      by_cases hpb : p b
      · rw [List.filter_cons_of_pos (by simpa using hpb), ih ht,
          List.filter_cons_of_pos (by simpa using hpb)]
        by_cases hpa : p a
        · rw [if_pos hpa, if_pos hpa, List.orderedInsert, if_neg hab]
        · rw [if_neg hpa, if_neg hpa]
      · rw [List.filter_cons_of_neg (by simpa using hpb), ih ht,
          List.filter_cons_of_neg (by simpa using hpb)]

theorem insertionSort_filter {α : Type} {r : α → α → Prop} [DecidableRel r]
    [IsTotal α r] [IsTrans α r] (p : α → Bool) (l : List α) :
    List.insertionSort r (l.filter p) = (List.insertionSort r l).filter p := by
  induction l with
  | nil => rfl
  | cons a l ih =>
    rw [List.insertionSort,
      orderedInsert_filter p a (List.sorted_insertionSort r l)]
    by_cases hpa : p a
    · rw [List.filter_cons_of_pos (by simpa using hpa), List.insertionSort, ih,
        if_pos hpa]
    · rw [List.filter_cons_of_neg (by simpa using hpa), ih, if_neg hpa]

/-- The effect of a stitch run on the scanned directory: the output file's
entry is overwritten in place when present, appended otherwise, with
whatever the `wave` reader will report for the newly written file. -/
def writeOut (files : List DirFile) (fn : String) (c : Option WavData) :
    List DirFile :=
  if files.any (fun f => f.relPath == fn) then
    files.map fun f => if f.relPath = fn then ⟨fn, c⟩ else f
  else files ++ [⟨fn, c⟩]

/-- The directory as the second invocation sees it: unchanged when the first
run failed before opening the output, otherwise with the output file
written. -/
def stitchFsAfter (files : List DirFile) (fn : String) (c : Option WavData) :
    List DirFile :=
  if rawMatches files = [] then files else writeOut files fn c

theorem fileName_if_eq {f : DirFile} {fn : String} {c : Option WavData} :
    fileName (if f.relPath = fn then (⟨fn, c⟩ : DirFile) else f) = fileName f := by
  by_cases hr : f.relPath = fn
  · rw [if_pos hr]; unfold fileName; rw [hr]
  · rw [if_neg hr]

theorem rawMatches_writeOut_excl (files : List DirFile) (fn : String)
    (c : Option WavData) :
    (rawMatches (writeOut files fn c)).filter (fun f => f.relPath ≠ fn) =
      (rawMatches files).filter (fun f => f.relPath ≠ fn) := by
  unfold writeOut
  by_cases hany : files.any (fun f => f.relPath == fn) = true
  · rw [if_pos hany]
    clear hany
    induction files with
    | nil => rfl
    | cons f l ih =>
      rw [List.map_cons]
      unfold rawMatches at ih ⊢
      by_cases hr : f.relPath = fn
      · rw [if_pos hr, List.filter_cons, List.filter_cons]
        have hfn : fileName (⟨fn, c⟩ : DirFile) = fileName f := by
          unfold fileName; rw [hr]
        by_cases hm : matchesSegPattern (fileName f) = true
        · rw [if_pos (by rwa [hfn]), if_pos hm, List.filter_cons, List.filter_cons,
            if_neg (by simp), if_neg (by simp [hr])]
          exact ih
        · rw [if_neg (by rwa [hfn]), if_neg hm]
          exact ih
      · rw [if_neg hr, List.filter_cons, List.filter_cons]
        by_cases hm : matchesSegPattern (fileName f) = true
        · rw [if_pos hm, if_pos hm, List.filter_cons, List.filter_cons,
            if_pos (by simp [hr]), if_pos (by simp [hr])]
          rw [ih]
        · rw [if_neg hm, if_neg hm]
          exact ih
  · rw [if_neg hany]
    unfold rawMatches
    rw [List.filter_append, List.filter_append]
    have : List.filter (fun f => decide (f.relPath ≠ fn))
        (List.filter (fun f => matchesSegPattern (fileName f)) [(⟨fn, c⟩ : DirFile)]) = [] := by
      rw [List.filter_cons]
      by_cases hm : matchesSegPattern (fileName (⟨fn, c⟩ : DirFile)) = true
      · simp [hm]
      · simp [hm]
    rw [this, List.append_nil]

theorem rawMatches_writeOut_ne {files : List DirFile} (fn : String)
    (c : Option WavData) (h : rawMatches files ≠ []) :
    rawMatches (writeOut files fn c) ≠ [] := by
  unfold writeOut
  by_cases hany : files.any (fun f => f.relPath == fn) = true
  · rw [if_pos hany]
    have hmap : rawMatches (files.map fun f => if f.relPath = fn then (⟨fn, c⟩ : DirFile) else f) =
        (rawMatches files).map (fun f => if f.relPath = fn then (⟨fn, c⟩ : DirFile) else f) := by
      unfold rawMatches
      rw [List.filter_map]
      congr 1
      apply List.filter_congr
      intro f _
      simp only [Function.comp_apply, fileName_if_eq]
    rw [hmap]
    intro hcon
    exact h (List.map_eq_nil_iff.mp hcon)
  · rw [if_neg hany]
    unfold rawMatches
    rw [List.filter_append]
    intro hcon
    rcases List.append_eq_nil.mp hcon with ⟨h1, _⟩
    exact h h1

/-- Claim C7 (confirmed): invoking `stitch_audio_segments` twice in
succession on a directory whose segment files are unchanged between the
invocations yields the identical result dictionary — in particular identical
`total_duration_seconds` and `num_segments` — because discovery is repeated
from scratch and the output file written by the first invocation is excluded
from the processed list (whatever its content `c` reads back as).  The
statement quantifies over the content `c` the first run leaves in the output
file, covering also the case of an output filename that itself matches the
segment pattern. -/
theorem c7_idempotent_restitch (files : List DirFile) (od fn : String)
    (c : Option WavData) :
    stitch_audio_segments (some (stitchFsAfter files fn c)) od fn =
      stitch_audio_segments (some files) od fn := by
  unfold stitchFsAfter
  by_cases hr : rawMatches files = []
  · rw [if_pos hr]
  · rw [if_neg hr]
    rw [stitch_eq_core (rawMatches_writeOut_ne fn c hr), stitch_eq_core hr]
    have hsegs : (List.insertionSort nameLe (rawMatches (writeOut files fn c))).filter
        (fun f => f.relPath ≠ fn) =
        (List.insertionSort nameLe (rawMatches files)).filter
        (fun f => f.relPath ≠ fn) := by
      rw [← insertionSort_filter, ← insertionSort_filter,
        rawMatches_writeOut_excl]
    rw [hsegs]

/-! ## Claim C2 -/

/-- A decimal digit character, as produced by Python `"%d"` formatting for
digits 0–9. -/
def digCh : Nat → Char
  | 0 => '0'
  | 1 => '1'
  | 2 => '2'
  | 3 => '3'
  | 4 => '4'
  | 5 => '5'
  | 6 => '6'
  | 7 => '7'
  | 8 => '8'
  | _ => '9'

/-- Python `f"{i:03d}"` for `i ≤ 999`: exactly three digits. -/
def pad3 (i : Nat) : List Char :=
  [digCh (i / 100), digCh (i / 10 % 10), digCh (i % 10)]

/-- The name `persist` gives a segment
(chatterbox_tool.py line 212: `f"segment_{segment_index:03d}_{speaker.lower()}.wav"`),
for indices up to 999. -/
def segWavChars (i : Nat) (sp : String) : List Char :=
  "segment_".data ++ pad3 i ++ '_' :: (pyLowerChars sp.data ++ ".wav".data)

def charDigit (c : Char) : Nat := c.toNat - 48

/-- The numeric index embedded in a persist-shaped file name (characters
8–10). -/
def segIdxOf (n : List Char) : Nat :=
  charDigit (n.getD 8 '0') * 100 + charDigit (n.getD 9 '0') * 10 +
    charDigit (n.getD 10 '0')

theorem digCh_toNat {d : Nat} (h : d ≤ 9) : (digCh d).toNat = 48 + d := by
  interval_cases d <;> rfl

theorem charDigit_digCh {d : Nat} (h : d ≤ 9) : charDigit (digCh d) = d := by
  unfold charDigit
  rw [digCh_toNat h]
  omega

theorem segWavChars_shape (i : Nat) (sp : String) :
    segWavChars i sp = 's' :: 'e' :: 'g' :: 'm' :: 'e' :: 'n' :: 't' :: '_' ::
      digCh (i / 100) :: digCh (i / 10 % 10) :: digCh (i % 10) :: '_' ::
      (pyLowerChars sp.data ++ ".wav".data) := rfl

theorem segIdxOf_segWavChars {i : Nat} (hi : i ≤ 999) (sp : String) :
    segIdxOf (segWavChars i sp) = i := by
  have h1 : i / 100 ≤ 9 := by omega
  have h2 : i / 10 % 10 ≤ 9 := by omega
  have h3 : i % 10 ≤ 9 := by omega
  rw [segWavChars_shape]
  show charDigit (digCh (i / 100)) * 100 + charDigit (digCh (i / 10 % 10)) * 10 +
    charDigit (digCh (i % 10)) = i
  rw [charDigit_digCh h1, charDigit_digCh h2, charDigit_digCh h3]
  omega

theorem charListLe_append_same (c : List Char) {a b : List Char} :
    charListLe (c ++ a) (c ++ b) = charListLe a b := by
  induction c with
  | nil => rfl
  | cons x c ih =>
    rw [List.cons_append, List.cons_append]
    show (if x < x then true else if x < x then false else charListLe (c ++ a) (c ++ b)) = _
    rw [if_neg (lt_irrefl x), if_neg (lt_irrefl x), ih]

theorem charListLe_cons_same {x : Char} {as bs : List Char} :
    charListLe (x :: as) (x :: bs) = charListLe as bs := by
  show (if x < x then true else if x < x then false else charListLe as bs) = _
  rw [if_neg (lt_irrefl x), if_neg (lt_irrefl x)]

theorem charListLe_cons_gt {x y : Char} (h : y < x) {as bs : List Char} :
    charListLe (x :: as) (y :: bs) = false := by
  rw [Bool.eq_false_iff]
  intro hle
  rcases charListLe_cons.mp hle with h' | ⟨h', _⟩
  · exact absurd h (asymm h')
  · rw [h'] at h
    exact lt_irrefl y h

theorem digCh_lt {a b : Nat} (ha : a ≤ 9) (hab : a < b) (hb : b ≤ 9) :
    digCh a < digCh b := by
  interval_cases a <;> interval_cases b <;> revert hab <;> decide

/-- Three-digit zero padding makes the lexicographic name order agree with
the numeric index order: a larger index never compares `≤` a smaller one. -/
theorem segWav_not_le {i j : Nat} (hij : i < j) (hj : j ≤ 999) (sp sq : String) :
    charListLe (segWavChars j sq) (segWavChars i sp) = false := by
  have hi9 : i / 100 ≤ 9 := by omega
  have hj9 : j / 100 ≤ 9 := by omega
  unfold segWavChars
  rw [List.append_assoc, List.append_assoc, charListLe_append_same]
  show charListLe
    (digCh (j / 100) :: digCh (j / 10 % 10) :: digCh (j % 10) :: '_' ::
      (pyLowerChars sq.data ++ ".wav".data))
    (digCh (i / 100) :: digCh (i / 10 % 10) :: digCh (i % 10) :: '_' ::
      (pyLowerChars sp.data ++ ".wav".data)) = false
  rcases Nat.lt_trichotomy (i / 100) (j / 100) with h1 | h1 | h1
  · exact charListLe_cons_gt (digCh_lt hi9 h1 hj9)
  · rw [h1, charListLe_cons_same]
    rcases Nat.lt_trichotomy (i / 10 % 10) (j / 10 % 10) with h2 | h2 | h2
    · exact charListLe_cons_gt (digCh_lt (by omega) h2 (by omega))
    · rw [h2, charListLe_cons_same]
      rcases Nat.lt_trichotomy (i % 10) (j % 10) with h3 | h3 | h3
      · exact charListLe_cons_gt (digCh_lt (by omega) h3 (by omega))
      · exfalso; omega
      · exfalso; omega
    · exfalso; omega
  · exfalso; omega

/-- A stable sort output is determined by the multiset when the sort keys
are distinct. -/
theorem eq_of_perm_sorted_nodup {l₁ l₂ : List DirFile} (hp : l₁.Perm l₂)
    (hs₁ : l₁.Sorted nameLe) (hs₂ : l₂.Sorted nameLe)
    (hn : (l₁.map fileName).Nodup) : l₁ = l₂ := by
  induction l₁ generalizing l₂ with
  | nil => exact hp.nil_eq
  | cons a t ih =>
    cases l₂ with
    | nil => exact absurd hp.eq_nil (by simp)
    | cons b t₂ =>
      have hn' : (fileName a :: t.map fileName).Nodup := by
        rw [← List.map_cons]
        exact hn
      have hnd := List.nodup_cons.mp hn'
      have hab : a = b := by
        by_cases he : a = b
        · exact he
        · have hbmem : b ∈ a :: t := hp.mem_iff.mpr (List.mem_cons_self b t₂)
          have hamem : a ∈ b :: t₂ := hp.mem_iff.mp (List.mem_cons_self a t)
          have hb_t : b ∈ t := by
            rcases List.mem_cons.mp hbmem with h | h
            · exact absurd h.symm he
            · exact h
          have ha_t₂ : a ∈ t₂ := by
            rcases List.mem_cons.mp hamem with h | h
            · exact absurd h he
            · exact h
          have hab' : nameLe a b := (List.sorted_cons.mp hs₁).1 b hb_t
          have hba' : nameLe b a := (List.sorted_cons.mp hs₂).1 a ha_t₂
          have hname : fileName a = fileName b := charListLe_antisymm hab' hba'
          have hmem : fileName a ∈ t.map fileName := by
            rw [hname]
            exact List.mem_map_of_mem fileName hb_t
          exact absurd hmem hnd.1
      subst hab
      rw [ih hp.cons_inv (List.sorted_cons.mp hs₁).2 (List.sorted_cons.mp hs₂).2 hnd.2]

/-- Claim C2 (confirmed): when every discovered `segment_*.wav` file carries
the persist naming convention with a zero-padded index of at most 999,
(i) discovery sorts the matches by file name, (ii) the appended frame data
follows ascending embedded numeric index order, (iii) the output byte stream
is the concatenation of the appended segments' frames in that order, and
(iv) the whole run is invariant under re-enumeration (any permutation) of
the filesystem listing when the discovered names are distinct. -/
theorem c2_ordering_invariant (files : List DirFile) (od fn : String)
    (hshape : ∀ f ∈ files, matchesSegPattern (fileName f) = true →
      ∃ i sp, i ≤ 999 ∧ fileName f = segWavChars i sp) :
    (List.insertionSort nameLe (rawMatches files)).Sorted nameLe ∧
    ((stitch_audio_segments (some files) od fn).appended.map
      (fun f => segIdxOf (fileName f))).Sorted (· ≤ ·) ∧
    (stitch_audio_segments (some files) od fn).outputBytes =
      ((stitch_audio_segments (some files) od fn).appended.map segFrames).flatten ∧
    (∀ files2, files2.Perm files → ((rawMatches files).map fileName).Nodup →
      stitch_audio_segments (some files2) od fn =
        stitch_audio_segments (some files) od fn) := by
  refine ⟨List.sorted_insertionSort nameLe (rawMatches files), ?_, ?_, ?_⟩
  · -- ascending index order of the appended list
    by_cases hr : rawMatches files = []
    · rw [stitch_empty hr]
      exact List.sorted_nil
    · rw [stitch_eq_core hr]
      have happ : ∀ st : StitchRun,
          st = stitchCore ((List.insertionSort nameLe (rawMatches files)).filter
            fun f => f.relPath ≠ fn) od fn →
          st.appended = (((List.insertionSort nameLe (rawMatches files)).filter
            fun f => f.relPath ≠ fn).foldl stepSeg {}).appended := by
        intro st hst
        by_cases hps : (((List.insertionSort nameLe (rawMatches files)).filter
            fun f => f.relPath ≠ fn).foldl stepSeg {}).paramsSet = true
        · rw [hst, stitchCore_pos hps]
        · rw [hst, stitchCore_neg hps]
      rw [happ _ rfl]
      obtain ⟨d, hd, hds⟩ := foldl_appended ((List.insertionSort nameLe
        (rawMatches files)).filter fun f => f.relPath ≠ fn) {}
      rw [hd]
      have hsub : d.Sublist (List.insertionSort nameLe (rawMatches files)) :=
        hds.trans (List.filter_sublist _)
      have hpw : d.Pairwise nameLe :=
        List.Pairwise.sublist hsub (List.sorted_insertionSort nameLe (rawMatches files))
      have hmem : ∀ x ∈ d, matchesSegPattern (fileName x) = true ∧ x ∈ files := by
        intro x hx
        have h1 : x ∈ List.insertionSort nameLe (rawMatches files) :=
          hsub.subset hx
        have h2 : x ∈ rawMatches files :=
          (List.perm_insertionSort nameLe (rawMatches files)).subset h1
        have h3 := List.mem_filter.mp h2
        exact ⟨h3.2, h3.1⟩
      have hidx : d.Pairwise (fun a b => segIdxOf (fileName a) ≤ segIdxOf (fileName b)) := by
        refine hpw.imp_of_mem ?_
        intro a b ha hb hle
        obtain ⟨ia, spa, hia, hna⟩ := hshape a (hmem a ha).2 (hmem a ha).1
        obtain ⟨ib, spb, hib, hnb⟩ := hshape b (hmem b hb).2 (hmem b hb).1
        by_contra hcon
        have hlt : ib < ia := by
          rw [hna, hnb, segIdxOf_segWavChars hia, segIdxOf_segWavChars hib] at hcon
          omega
        have := segWav_not_le hlt hia spb spa
        rw [← hna, ← hnb] at this
        unfold nameLe at hle
        rw [hle] at this
        cases this
      simp only [List.nil_append]
      exact (List.pairwise_map).mpr hidx
  · -- output bytes are the appended frames in order
    by_cases hr : rawMatches files = []
    · rw [stitch_empty hr]
      rfl
    · rw [stitch_eq_core hr]
      have hinv := @foldl_inv ((List.insertionSort nameLe (rawMatches files)).filter
          fun f => f.relPath ≠ fn) {} rfl rfl
      by_cases hps : (((List.insertionSort nameLe (rawMatches files)).filter
          fun f => f.relPath ≠ fn).foldl stepSeg {}).paramsSet = true
      · rw [stitchCore_pos hps]
        exact hinv.1
      · rw [stitchCore_neg hps]
        exact hinv.1
  · -- enumeration-order invariance under distinct names
    intro files2 hperm hnodup
    have hpraw : (rawMatches files2).Perm (rawMatches files) := hperm.filter _
    by_cases hr : rawMatches files = []
    · have hr2 : rawMatches files2 = [] := by
        rw [hr] at hpraw
        exact hpraw.eq_nil
      rw [stitch_empty hr, stitch_empty hr2]
    · have hr2 : rawMatches files2 ≠ [] := by
        intro hcon
        rw [hcon] at hpraw
        exact hr hpraw.nil_eq.symm
      rw [stitch_eq_core hr2, stitch_eq_core hr]
      have hsort : List.insertionSort nameLe (rawMatches files2) =
          List.insertionSort nameLe (rawMatches files) := by
        apply eq_of_perm_sorted_nodup
        · exact (List.perm_insertionSort nameLe (rawMatches files2)).trans
            (hpraw.trans ((List.perm_insertionSort nameLe (rawMatches files)).symm))
        · exact List.sorted_insertionSort nameLe (rawMatches files2)
        · exact List.sorted_insertionSort nameLe (rawMatches files)
        · have hp2 : ((List.insertionSort nameLe (rawMatches files2)).map fileName).Perm
              ((rawMatches files).map fileName) :=
            (List.perm_insertionSort nameLe (rawMatches files2)).map fileName |>.trans
              (hpraw.map fileName)
          exact hp2.nodup_iff.mpr hnodup
      rw [hsort]

/-- Witness for C2 at a concrete input with two persist-named segments. -/
theorem c2_ordering_invariant_witness :
    ((stitch_audio_segments (some
        [(⟨"segment_001_expert.wav", some ⟨1, 2, 8000, 4, [3, 4]⟩⟩ : DirFile),
         ⟨"segment_000_host.wav", some ⟨1, 2, 8000, 4, [1, 2]⟩⟩])
      "output" "final_podcast.wav").appended.map
      (fun f => segIdxOf (fileName f))).Sorted (· ≤ ·) :=
  (c2_ordering_invariant
    [⟨"segment_001_expert.wav", some ⟨1, 2, 8000, 4, [3, 4]⟩⟩,
     ⟨"segment_000_host.wav", some ⟨1, 2, 8000, 4, [1, 2]⟩⟩]
    "output" "final_podcast.wav"
    (by
      intro f hf hm
      rcases List.mem_cons.mp hf with rfl | hf2
      · exact ⟨1, "Expert", by omega, by decide⟩
      · rcases List.mem_cons.mp hf2 with rfl | hf3
        · exact ⟨0, "Host", by omega, by decide⟩
        · exact absurd hf3 (List.not_mem_nil f))).2.1

/-! ## Claim C9: generate_podcast_audio (src/tools/chatterbox_tool.py) -/

/-- One dialogue entry as the loop reads it: a dict whose `speaker` and
`text` keys may be missing (`entry.get("speaker", "Host")`,
`entry.get("text", "")`). -/
structure ScriptEntry where
  speaker : Option String
  text : Option String
deriving DecidableEq

/-- What `generate_audio_segment` returns to the loop: a success dictionary
carrying `file_path`, or an error dictionary carrying `error`.  The TTS
engine behind it is opaque, so the claims are stated for every oracle. -/
inductive TtsOutcome where
  | ok (file_path : String)
  | er (msg : String)
deriving DecidableEq

/-- The dictionary returned by `generate_podcast_audio`, with the keys each
return site carries. -/
structure PodcastAudioResult where
  status : String
  audio_files : List String
  total_segments : Nat
  errors : Option (List String)
  output_directory : Option String
deriving DecidableEq

/-- One iteration of `for idx, entry in enumerate(script)` (chatterbox_tool
lines 278–295): blank text (`if not text.strip(): continue`) is skipped
before the TTS call; a success appends the file path, a failure appends a
`Segment {idx}: {msg}` entry to the error list. -/
def genStep (tts : String → String → Nat → TtsOutcome)
    (acc : List String × List String) (ie : Nat × ScriptEntry) :
    List String × List String :=
  let speaker := ie.2.speaker.getD "Host"
  let text := ie.2.text.getD ""
  if pyStripChars text.data = [] then acc
  else
    match tts text speaker ie.1 with
    | .ok fp => (acc.1 ++ [fp], acc.2)
    | .er m => (acc.1, acc.2 ++ ["Segment " ++ toString ie.1 ++ ": " ++ m])

/-- Embedding of `generate_podcast_audio` (chatterbox_tool.py lines
257–310), parameterised by the TTS oracle.  The `output_directory` of a
success result is reported as the given directory string. -/
def generate_podcast_audio (tts : String → String → Nat → TtsOutcome)
    (script : List ScriptEntry) (output_dir : String) : PodcastAudioResult :=
  let fe := script.enum.foldl (genStep tts) ([], [])
  if fe.2.isEmpty then
    { status := "success", audio_files := fe.1, total_segments := fe.1.length,
      errors := none, output_directory := some output_dir }
  else
    { status := if fe.1.isEmpty then "error" else "partial",
      audio_files := fe.1, total_segments := fe.1.length,
      errors := some fe.2, output_directory := none }

/-- The audio file an enumerated entry contributes, if any. -/
def okSide (tts : String → String → Nat → TtsOutcome)
    (ie : Nat × ScriptEntry) : Option String :=
  if pyStripChars (ie.2.text.getD "").data = [] then none
  else
    match tts (ie.2.text.getD "") (ie.2.speaker.getD "Host") ie.1 with
    | .ok fp => some fp
    | .er _ => none

/-- The error entry an enumerated entry contributes, if any. -/
def errSide (tts : String → String → Nat → TtsOutcome)
    (ie : Nat × ScriptEntry) : Option String :=
  if pyStripChars (ie.2.text.getD "").data = [] then none
  else
    match tts (ie.2.text.getD "") (ie.2.speaker.getD "Host") ie.1 with
    | .ok _ => none
    | .er m => some ("Segment " ++ toString ie.1 ++ ": " ++ m)

theorem genFold_eq (tts : String → String → Nat → TtsOutcome)
    (l : List (Nat × ScriptEntry)) (a b : List String) :
    l.foldl (genStep tts) (a, b) =
      (a ++ l.filterMap (okSide tts), b ++ l.filterMap (errSide tts)) := by
  induction l generalizing a b with
  | nil => simp
  | cons ie l ih =>
    rw [List.foldl_cons, List.filterMap_cons, List.filterMap_cons]
    by_cases hb : pyStripChars ((ie.2.text.getD "").data) = []
    · have hstep : genStep tts (a, b) ie = (a, b) := by
        unfold genStep
        rw [if_pos hb]
      have hok : okSide tts ie = none := by unfold okSide; rw [if_pos hb]
      have her : errSide tts ie = none := by unfold errSide; rw [if_pos hb]
      rw [hstep, hok, her, ih]
    · cases ht : tts (ie.2.text.getD "") (ie.2.speaker.getD "Host") ie.1 with
      | ok fp =>
        have hstep : genStep tts (a, b) ie = (a ++ [fp], b) := by
          unfold genStep
          rw [if_neg hb, ht]
        have hok : okSide tts ie = some fp := by unfold okSide; rw [if_neg hb, ht]
        have her : errSide tts ie = none := by unfold errSide; rw [if_neg hb, ht]
        rw [hstep, hok, her, ih, List.append_assoc]
        rfl
      | er m =>
        have hstep : genStep tts (a, b) ie =
            (a, b ++ ["Segment " ++ toString ie.1 ++ ": " ++ m]) := by
          unfold genStep
          rw [if_neg hb, ht]
        have hok : okSide tts ie = none := by unfold okSide; rw [if_neg hb, ht]
        have her : errSide tts ie = some ("Segment " ++ toString ie.1 ++ ": " ++ m) := by
          unfold errSide
          rw [if_neg hb, ht]
        rw [hstep, hok, her, ih, List.append_assoc]
        rfl

/-- Claim C9 (confirmed): a turn whose text is empty or whitespace-only
contributes no audio file, no error and no segment count, while every other
turn is processed in enumeration order with its original list index as
`segment_index` — the result lists are the `filterMap` over the enumerated
script — and the whole result is unchanged under any replacement of the
TTS oracle that agrees on non-blank texts, i.e. blank turns are never passed
to the TTS capability. -/
theorem c9_empty_turn_skip (tts : String → String → Nat → TtsOutcome)
    (script : List ScriptEntry) (od : String) :
    (generate_podcast_audio tts script od).audio_files =
      script.enum.filterMap (okSide tts) ∧
    (generate_podcast_audio tts script od).errors.getD [] =
      script.enum.filterMap (errSide tts) ∧
    (generate_podcast_audio tts script od).total_segments =
      (script.enum.filterMap (okSide tts)).length ∧
    (∀ tts2, (∀ t sp i, pyStripChars t.data ≠ [] → tts t sp i = tts2 t sp i) →
      generate_podcast_audio tts2 script od = generate_podcast_audio tts script od) := by
  have hfold := genFold_eq tts script.enum [] []
  simp only [List.nil_append] at hfold
  refine ⟨?_, ?_, ?_, ?_⟩
  · unfold generate_podcast_audio
    rw [hfold]
    by_cases he : (script.enum.filterMap (errSide tts)).isEmpty = true <;>
      simp [he]
  · unfold generate_podcast_audio
    rw [hfold]
    by_cases he : (script.enum.filterMap (errSide tts)).isEmpty = true
    · rw [if_pos he]
      exact (List.isEmpty_iff.mp he).symm
    · rw [if_neg he]
      rfl
  · unfold generate_podcast_audio
    rw [hfold]
    by_cases he : (script.enum.filterMap (errSide tts)).isEmpty = true <;>
      simp [he]
  · intro tts2 hagree
    have hsame : ∀ ie : Nat × ScriptEntry,
        okSide tts2 ie = okSide tts ie ∧ errSide tts2 ie = errSide tts ie := by
      intro ie
      by_cases hb : pyStripChars ((ie.2.text.getD "").data) = []
      · refine ⟨?_, ?_⟩
        · unfold okSide; rw [if_pos hb, if_pos hb]
        · unfold errSide; rw [if_pos hb, if_pos hb]
      · have hag := hagree (ie.2.text.getD "") (ie.2.speaker.getD "Host") ie.1 hb
        refine ⟨?_, ?_⟩
        · unfold okSide; rw [if_neg hb, if_neg hb, hag]
        · unfold errSide; rw [if_neg hb, if_neg hb, hag]
    have hok : script.enum.filterMap (okSide tts2) =
        script.enum.filterMap (okSide tts) :=
      List.filterMap_congr (fun ie _ => (hsame ie).1)
    have her : script.enum.filterMap (errSide tts2) =
        script.enum.filterMap (errSide tts) :=
      List.filterMap_congr (fun ie _ => (hsame ie).2)
    have hfold2 := genFold_eq tts2 script.enum [] []
    simp only [List.nil_append] at hfold2
    unfold generate_podcast_audio
    rw [hfold, hfold2, hok, her]

/-- Witness for C9 at a concrete input: a blank turn between two spoken
turns, under two oracles that differ only on blank text. -/
theorem c9_empty_turn_skip_witness :
    (generate_podcast_audio (fun t _ i => .ok (t ++ toString i))
      [⟨some "Host", some "Hello"⟩, ⟨some "Expert", some "  \t "⟩,
       ⟨none, some "World"⟩] "output").audio_files =
      [(⟨0, ⟨some "Host", some "Hello"⟩⟩ : Nat × ScriptEntry),
       ⟨1, ⟨some "Expert", some "  \t "⟩⟩,
       ⟨2, ⟨none, some "World"⟩⟩].filterMap
        (okSide (fun t _ i => .ok (t ++ toString i))) ∧
    generate_podcast_audio (fun t sp i =>
        if pyStripChars t.data = [] then .er "blank reached the oracle"
        else TtsOutcome.ok (t ++ toString i))
      [⟨some "Host", some "Hello"⟩, ⟨some "Expert", some "  \t "⟩,
       ⟨none, some "World"⟩] "output" =
    generate_podcast_audio (fun t _ i => .ok (t ++ toString i))
      [⟨some "Host", some "Hello"⟩, ⟨some "Expert", some "  \t "⟩,
       ⟨none, some "World"⟩] "output" :=
  ⟨(c9_empty_turn_skip (fun t _ i => .ok (t ++ toString i))
      [⟨some "Host", some "Hello"⟩, ⟨some "Expert", some "  \t "⟩,
       ⟨none, some "World"⟩] "output").1,
   (c9_empty_turn_skip (fun t _ i => .ok (t ++ toString i))
      [⟨some "Host", some "Hello"⟩, ⟨some "Expert", some "  \t "⟩,
       ⟨none, some "World"⟩] "output").2.2.2
     (fun t sp i =>
        if pyStripChars t.data = [] then .er "blank reached the oracle"
        else TtsOutcome.ok (t ++ toString i))
     (fun t sp i hne => (if_neg hne).symm)⟩

/-! ## Claim C8: parse_script_json (src/streamlit_app.py)

The model of `json.loads` below implements the RFC 8259 grammar that
CPython's `json` decoder accepts in its default strict mode: the four
whitespace characters, `null`/`true`/`false`, numbers
(`-?(0|[1-9]\d*)(\.\d+)?([eE][+-]?\d+)?`), strings with the standard escape
set and `\uXXXX`, and literal control characters rejected inside strings.
String and number values are kept as their raw lexemes — parses of equal
texts are equal, which is all the round-trip claim compares. -/

/-- JSON values (strings and numbers as raw lexemes). -/
inductive J where
  | null
  | bool (b : Bool)
  | num (lexeme : String)
  | str (raw : String)
  | arr (elems : List J)
  | obj (members : List (String × J))

/-- The whitespace set of the `json` decoder (`' \t\n\r'`). -/
def jsonWs (c : Char) : Bool := c == ' ' || c == '\t' || c == '\n' || c == '\r'

def isDigitCh (c : Char) : Bool := '0' ≤ c && c ≤ '9'

def isHexCh (c : Char) : Bool :=
  isDigitCh c || ('a' ≤ c && c ≤ 'f') || ('A' ≤ c && c ≤ 'F')

/-- String body after the opening quote: raw content chars and the rest
after the closing quote.  Control characters are rejected (strict mode);
escapes are the standard set plus `\uXXXX`. -/
def parseStrBody : Nat → List Char → Option (List Char × List Char)
  | 0, _ => none
  | _ + 1, [] => none
  | fuel + 1, c :: cs =>
    if c = '"' then some ([], cs)
    else if c = '\\' then
      match cs with
      | [] => none
      | e :: cs2 =>
        if e = 'u' then
          match cs2 with
          | h1 :: h2 :: h3 :: h4 :: cs3 =>
            if isHexCh h1 && isHexCh h2 && isHexCh h3 && isHexCh h4 then
              (parseStrBody fuel cs3).map fun br =>
                (c :: e :: h1 :: h2 :: h3 :: h4 :: br.1, br.2)
            else none
          | _ => none
        else if e = '"' ∨ e = '\\' ∨ e = '/' ∨ e = 'b' ∨ e = 'f' ∨ e = 'n' ∨
            e = 'r' ∨ e = 't' then
          (parseStrBody fuel cs2).map fun br => (c :: e :: br.1, br.2)
        else none
    else if c.toNat < 32 then none
    else (parseStrBody fuel cs).map fun br => (c :: br.1, br.2)

/-- Optional fraction part `(\.\d+)?`. -/
def parseFrac (cs : List Char) : List Char × List Char :=
  match cs with
  | '.' :: t =>
    if t.takeWhile isDigitCh = [] then ([], cs)
    else ('.' :: t.takeWhile isDigitCh, t.dropWhile isDigitCh)
  | _ => ([], cs)

/-- Optional exponent part `([eE][+-]?\d+)?`. -/
def parseExp (cs : List Char) : List Char × List Char :=
  match cs with
  | e :: t =>
    if e = 'e' ∨ e = 'E' then
      match t with
      | s :: t2 =>
        if s = '+' ∨ s = '-' then
          if t2.takeWhile isDigitCh = [] then ([], cs)
          else (e :: s :: t2.takeWhile isDigitCh, t2.dropWhile isDigitCh)
        else
          if t.takeWhile isDigitCh = [] then ([], cs)
          else (e :: t.takeWhile isDigitCh, t.dropWhile isDigitCh)
      | [] => ([], cs)
    else ([], cs)
  | [] => ([], cs)

def parseNumTail (pre : List Char) (cs : List Char) :
    Option (List Char × List Char) :=
  let f := parseFrac cs
  let e := parseExp f.2
  some (pre ++ f.1 ++ e.1, e.2)

/-- Integer part after an optional sign: `0` or a nonzero digit followed by
digits. -/
def parseNumCore (sign : List Char) (cs1 : List Char) :
    Option (List Char × List Char) :=
  match cs1 with
  | [] => none
  | d :: t =>
    if d = '0' then parseNumTail (sign ++ ['0']) t
    else if isDigitCh d then
      parseNumTail (sign ++ d :: t.takeWhile isDigitCh) (t.dropWhile isDigitCh)
    else none

def parseNum (cs : List Char) : Option (List Char × List Char) :=
  match cs with
  | '-' :: cs1 => parseNumCore ['-'] cs1
  | _ => parseNumCore [] cs

mutual

/-- One JSON value, leading whitespace skipped.  The fuel decreases on every
recursive call; each call consumes at least one character per at most two
calls, so the generous fuel chosen at top level never runs out on real
input. -/
def parseVal : Nat → List Char → Option (J × List Char)
  | 0, _ => none
  | fuel + 1, cs =>
    match cs.dropWhile jsonWs with
    | 'n' :: 'u' :: 'l' :: 'l' :: rest => some (J.null, rest)
    | 't' :: 'r' :: 'u' :: 'e' :: rest => some (J.bool true, rest)
    | 'f' :: 'a' :: 'l' :: 's' :: 'e' :: rest => some (J.bool false, rest)
    | '"' :: rest =>
      (parseStrBody fuel rest).map fun br => (J.str (String.mk br.1), br.2)
    | '[' :: rest =>
      (match rest.dropWhile jsonWs with
       | ']' :: r2 => some (J.arr [], r2)
       | _ => (parseArrRest fuel rest).map fun lr => (J.arr lr.1, lr.2))
    | '{' :: rest =>
      (match rest.dropWhile jsonWs with
       | '}' :: r2 => some (J.obj [], r2)
       | _ => (parseObjRest fuel rest).map fun lr => (J.obj lr.1, lr.2))
    | c :: rest =>
      if c = '-' ∨ isDigitCh c = true then
        (parseNum (cs.dropWhile jsonWs)).map fun nr => (J.num (String.mk nr.1), nr.2)
      else none
    | [] => none

/-- One or more array elements, then `]`. -/
def parseArrRest : Nat → List Char → Option (List J × List Char)
  | 0, _ => none
  | fuel + 1, cs =>
    (parseVal fuel cs).bind fun vr =>
      match vr.2.dropWhile jsonWs with
      | ',' :: r2 => (parseArrRest fuel r2).map fun lr => (vr.1 :: lr.1, lr.2)
      | ']' :: r2 => some ([vr.1], r2)
      | _ => none

/-- One or more object members, then `}`. -/
def parseObjRest : Nat → List Char → Option (List (String × J) × List Char)
  | 0, _ => none
  | fuel + 1, cs =>
    match cs.dropWhile jsonWs with
    | '"' :: r =>
      (parseStrBody fuel r).bind fun kr =>
        match kr.2.dropWhile jsonWs with
        | ':' :: r2 =>
          (parseVal fuel r2).bind fun vr =>
            match vr.2.dropWhile jsonWs with
            | ',' :: r3 =>
              (parseObjRest fuel r3).map fun lr =>
                ((String.mk kr.1, vr.1) :: lr.1, lr.2)
            | '}' :: r3 => some ([(String.mk kr.1, vr.1)], r3)
            | _ => none
        | _ => none
    | _ => none

end

/-- Model of `json.loads` on a character list: parse one value, then require
only trailing whitespace (the decoder's `Extra data` check). -/
def jsonLoadsChars (cs : List Char) : Option J :=
  match parseVal (2 * cs.length + 8) cs with
  | some (v, rest) => if (rest.dropWhile jsonWs).isEmpty then some v else none
  | none => none

/-- Model of `json.loads` on strings. -/
def jsonLoads (s : String) : Option J := jsonLoadsChars s.data

/-! ### No backtick can start a line of a valid JSON text

`noTick st cs` scans `cs` with a flag telling whether only whitespace has
been seen since the start of the current line; it fails exactly when a
backtick occurs at such a position.  A text accepted by the JSON parser
passes the scan, because every newline it contains is inter-token
whitespace (strings cannot hold literal control characters), and the first
non-blank character after one is a token character, never a backtick. -/
def noTick : Bool → List Char → Bool
  | _, [] => true
  | st, c :: cs =>
    if st && (c == '`') then false
    else noTick ((c == '\n') || (st && isPyWs c)) cs

/-- Safe from every line state. -/
def SafeAll (cs : List Char) : Prop := ∀ st, noTick st cs = true

/-- Safe from the mid-line state. -/
def SafeLow (cs : List Char) : Prop := noTick false cs = true

theorem safeAll_nil : SafeAll [] := fun _ => rfl

theorem safeAll_cons {c : Char} {cs : List Char} (hc : c ≠ '`')
    (h : SafeAll cs) : SafeAll (c :: cs) := by
  intro st
  show (if st && (c == '`') then false
        else noTick ((c == '\n') || (st && isPyWs c)) cs) = true
  rw [if_neg (by simp [hc]), h]

theorem safeAll_append {a b : List Char} (ha : ∀ c ∈ a, c ≠ '`')
    (hb : SafeAll b) : SafeAll (a ++ b) := by
  induction a with
  | nil => exact hb
  | cons c a ih =>
    exact safeAll_cons (ha c (List.mem_cons_self c a))
      (ih fun x hx => ha x (List.mem_cons_of_mem c hx))

theorem safeAll_safeLow {cs : List Char} (h : SafeAll cs) : SafeLow cs := h false

theorem safeAll_of_safeLow {c : Char} {cs : List Char} (hc1 : c ≠ '`')
    (hc2 : c ≠ '\n') (hc3 : isPyWs c = false) (h : SafeLow cs) :
    SafeAll (c :: cs) := by
  intro st
  show (if st && (c == '`') then false
        else noTick ((c == '\n') || (st && isPyWs c)) cs) = true
  rw [if_neg (by simp [hc1])]
  have : ((c == '\n') || (st && isPyWs c)) = false := by
    simp [hc2, hc3]
  rw [this, h]

theorem safeLow_append_nl_free {a b : List Char} (ha : ∀ c ∈ a, c ≠ '\n')
    (hb : SafeLow b) : SafeLow (a ++ b) := by
  induction a with
  | nil => exact hb
  | cons c a ih =>
    show (if false && (c == '`') then false
          else noTick ((c == '\n') || (false && isPyWs c)) (a ++ b)) = true
    have h1 : (false && (c == '`')) = false := by simp
    have h2 : ((c == '\n') || (false && isPyWs c)) = false := by
      simp [ha c (List.mem_cons_self c a)]
    rw [if_neg (by rw [h1]; exact Bool.false_ne_true), h2]
    exact ih fun x hx => ha x (List.mem_cons_of_mem c hx)

theorem jsonWs_ne_tick {c : Char} (h : jsonWs c = true) : c ≠ '`' := by
  intro he
  subst he
  exact absurd h (by decide)

theorem safeAll_of_dropWhile {cs : List Char}
    (h : SafeAll (cs.dropWhile jsonWs)) : SafeAll cs := by
  induction cs with
  | nil => exact safeAll_nil
  | cons c cs ih =>
    by_cases hw : jsonWs c = true
    · rw [List.dropWhile_cons_of_pos hw] at h
      exact safeAll_cons (jsonWs_ne_tick hw) (ih h)
    · rwa [List.dropWhile_cons_of_neg hw] at h

theorem takeWhile_jsonWs_ne_tick {cs : List Char} :
    ∀ c ∈ cs.takeWhile jsonWs, c ≠ '`' := by
  intro c hc
  exact jsonWs_ne_tick (List.mem_takeWhile_imp hc)

theorem safeAll_ws_only {cs : List Char} (h : cs.dropWhile jsonWs = []) :
    SafeAll cs := by
  have : cs = cs.takeWhile jsonWs := by
    conv_lhs => rw [← List.takeWhile_append_dropWhile jsonWs cs]
    rw [h, List.append_nil]
  rw [this]
  have := @safeAll_append (cs.takeWhile jsonWs) [] takeWhile_jsonWs_ne_tick safeAll_nil
  simpa using this

theorem isDigitCh_ne_tick {c : Char} (h : isDigitCh c = true) : c ≠ '`' := by
  intro he
  subst he
  exact absurd h (by decide)

theorem takeWhile_digit_ne_tick {cs : List Char} :
    ∀ c ∈ cs.takeWhile isDigitCh, c ≠ '`' := by
  intro c hc
  exact isDigitCh_ne_tick (List.mem_takeWhile_imp hc)

theorem parseFrac_decomp (cs : List Char) :
    cs = (parseFrac cs).1 ++ (parseFrac cs).2 ∧
    ∀ c ∈ (parseFrac cs).1, c ≠ '`' := by
  unfold parseFrac
  split
  · next t =>
    by_cases hd : t.takeWhile isDigitCh = []
    · rw [if_pos hd]
      exact ⟨rfl, by simp⟩
    · rw [if_neg hd]
      refine ⟨?_, ?_⟩
      · show '.' :: t = ('.' :: t.takeWhile isDigitCh) ++ t.dropWhile isDigitCh
        rw [List.cons_append, List.takeWhile_append_dropWhile]
      · intro c hc
        rcases List.mem_cons.mp hc with rfl | hc2
        · decide
        · exact takeWhile_digit_ne_tick c hc2
  · exact ⟨rfl, by simp⟩

theorem parseExp_decomp (cs : List Char) :
    cs = (parseExp cs).1 ++ (parseExp cs).2 ∧
    ∀ c ∈ (parseExp cs).1, c ≠ '`' := by
  unfold parseExp
  split
  · next e t =>
    by_cases he : e = 'e' ∨ e = 'E'
    · rw [if_pos he]
      have hene : e ≠ '`' := by
        rcases he with rfl | rfl <;> decide
      rcases t with _ | ⟨s, t2⟩
      · exact ⟨rfl, by simp⟩
      show e :: s :: t2 =
          (if s = '+' ∨ s = '-' then
            if t2.takeWhile isDigitCh = [] then ([], e :: s :: t2)
            else (e :: s :: t2.takeWhile isDigitCh, t2.dropWhile isDigitCh)
          else
            if (s :: t2).takeWhile isDigitCh = [] then ([], e :: s :: t2)
            else (e :: (s :: t2).takeWhile isDigitCh, (s :: t2).dropWhile isDigitCh)).1 ++
          (if s = '+' ∨ s = '-' then
            if t2.takeWhile isDigitCh = [] then ([], e :: s :: t2)
            else (e :: s :: t2.takeWhile isDigitCh, t2.dropWhile isDigitCh)
          else
            if (s :: t2).takeWhile isDigitCh = [] then ([], e :: s :: t2)
            else (e :: (s :: t2).takeWhile isDigitCh, (s :: t2).dropWhile isDigitCh)).2 ∧
        ∀ c ∈ (if s = '+' ∨ s = '-' then
            if t2.takeWhile isDigitCh = [] then ([], e :: s :: t2)
            else (e :: s :: t2.takeWhile isDigitCh, t2.dropWhile isDigitCh)
          else
            if (s :: t2).takeWhile isDigitCh = [] then ([], e :: s :: t2)
            else (e :: (s :: t2).takeWhile isDigitCh, (s :: t2).dropWhile isDigitCh)).1,
          c ≠ '`'
      by_cases hs : s = '+' ∨ s = '-'
      · rw [if_pos hs]
        by_cases hd : t2.takeWhile isDigitCh = []
        · rw [if_pos hd]
          exact ⟨rfl, by simp⟩
        · rw [if_neg hd]
          refine ⟨?_, ?_⟩
          · show e :: s :: t2 =
              (e :: s :: t2.takeWhile isDigitCh) ++ t2.dropWhile isDigitCh
            rw [List.cons_append, List.cons_append,
              List.takeWhile_append_dropWhile]
          · intro c hc
            rcases List.mem_cons.mp hc with rfl | hc2
            · exact hene
            · rcases List.mem_cons.mp hc2 with rfl | hc3
              · rcases hs with rfl | rfl <;> decide
              · exact takeWhile_digit_ne_tick c hc3
      · rw [if_neg hs]
        by_cases hd : (s :: t2).takeWhile isDigitCh = []
        · rw [if_pos hd]
          exact ⟨rfl, by simp⟩
        · rw [if_neg hd]
          refine ⟨?_, ?_⟩
          · show e :: s :: t2 =
              (e :: (s :: t2).takeWhile isDigitCh) ++ (s :: t2).dropWhile isDigitCh
            rw [List.cons_append, List.takeWhile_append_dropWhile]
          · intro c hc
            rcases List.mem_cons.mp hc with rfl | hc2
            · exact hene
            · exact takeWhile_digit_ne_tick c hc2
    · rw [if_neg he]
      exact ⟨rfl, by simp⟩
  · exact ⟨rfl, by simp⟩

theorem parseNumTail_decomp {pre cs lx rest : List Char}
    (hpre : ∀ c ∈ pre, c ≠ '`')
    (h : parseNumTail pre cs = some (lx, rest)) :
    ∃ p, cs = p ++ rest ∧ ∀ c ∈ p, c ≠ '`' := by
  unfold parseNumTail at h
  obtain ⟨hf1, hf2⟩ := parseFrac_decomp cs
  obtain ⟨he1, he2⟩ := parseExp_decomp (parseFrac cs).2
  refine ⟨(parseFrac cs).1 ++ (parseExp (parseFrac cs).2).1, ?_, ?_⟩
  · have hrest : rest = (parseExp (parseFrac cs).2).2 := by
      cases h
      rfl
    rw [hrest, List.append_assoc, ← he1]
    exact hf1
  · intro c hc
    rcases List.mem_append.mp hc with hc2 | hc2
    · exact hf2 c hc2
    · exact he2 c hc2

theorem parseNum_decomp {cs lx rest : List Char}
    (h : parseNum cs = some (lx, rest)) :
    ∃ p, cs = p ++ rest ∧ ∀ c ∈ p, c ≠ '`' := by
  have core : ∀ (sign cs1 : List Char), (∀ c ∈ sign, c ≠ '`') →
      parseNumCore sign cs1 = some (lx, rest) →
      ∃ p, cs1 = p ++ rest ∧ ∀ c ∈ p, c ≠ '`' := by
    intro sign cs1 hsign hc
    cases cs1 with
    | nil => simp [parseNumCore] at hc
    | cons d t =>
      rw [show parseNumCore sign (d :: t) =
          (if d = '0' then parseNumTail (sign ++ ['0']) t
           else if isDigitCh d = true then
             parseNumTail (sign ++ d :: t.takeWhile isDigitCh) (t.dropWhile isDigitCh)
           else none) from rfl] at hc
      by_cases hd0 : d = '0'
      · rw [if_pos hd0] at hc
        obtain ⟨p, hp1, hp2⟩ := @parseNumTail_decomp (sign ++ ['0']) t lx rest
          (by
            intro c hcm
            rcases List.mem_append.mp hcm with hm | hm
            · exact hsign c hm
            · rcases List.mem_singleton.mp hm with rfl
              decide) hc
        refine ⟨d :: p, ?_, ?_⟩
        · rw [List.cons_append, ← hp1]
        · intro c hcm
          rcases List.mem_cons.mp hcm with rfl | hm
          · rw [hd0]; decide
          · exact hp2 c hm
      · rw [if_neg hd0] at hc
        by_cases hdd : isDigitCh d = true
        · rw [if_pos hdd] at hc
          obtain ⟨p, hp1, hp2⟩ :=
            @parseNumTail_decomp (sign ++ d :: t.takeWhile isDigitCh)
              (t.dropWhile isDigitCh) lx rest (by
              intro c hcm
              rcases List.mem_append.mp hcm with hm | hm
              · exact hsign c hm
              · rcases List.mem_cons.mp hm with rfl | hm2
                · exact isDigitCh_ne_tick hdd
                · exact takeWhile_digit_ne_tick c hm2) hc
          refine ⟨d :: t.takeWhile isDigitCh ++ p, ?_, ?_⟩
          · have ht : t = t.takeWhile isDigitCh ++ (p ++ rest) := by
              conv_lhs => rw [← List.takeWhile_append_dropWhile isDigitCh t, hp1]
            conv_lhs => rw [ht]
            simp [List.append_assoc]
          · intro c hcm
            rcases List.mem_cons.mp hcm with rfl | hm
            · exact isDigitCh_ne_tick hdd
            · rcases List.mem_append.mp hm with hm2 | hm2
              · exact takeWhile_digit_ne_tick c hm2
              · exact hp2 c hm2
        · rw [if_neg hdd] at hc
          cases hc
  unfold parseNum at h
  split at h
  · next cs1 =>
    obtain ⟨p, hp1, hp2⟩ := core ['-'] cs1
      (by intro c hc; rcases List.mem_singleton.mp hc with rfl; decide) h
    refine ⟨'-' :: p, ?_, ?_⟩
    · rw [List.cons_append, ← hp1]
    · intro c hc
      rcases List.mem_cons.mp hc with rfl | hm
      · decide
      · exact hp2 c hm
  · next =>
    exact core [] cs (by simp) h

theorem isHexCh_ne_nl {c : Char} (h : isHexCh c = true) : c ≠ '\n' := by
  intro he
  subst he
  exact absurd h (by decide)

/-- Everything a successful string-body parse consumes is newline-free:
content characters are non-control, escape characters come from the fixed
set. -/
theorem parseStrBody_decomp (fuel : Nat) (cs : List Char) :
    ∀ {b rest : List Char}, parseStrBody fuel cs = some (b, rest) →
    ∃ pre, cs = pre ++ rest ∧ ∀ c ∈ pre, c ≠ '\n' := by
  induction fuel, cs using parseStrBody.induct with
  | case1 x =>
    intro b rest h
    simp [parseStrBody] at h
  | case2 n =>
    intro b rest h
    simp [parseStrBody] at h
  | case3 fuel cs =>
    intro b rest h
    rw [show parseStrBody (fuel + 1) ('"' :: cs) = some ([], cs) from rfl] at h
    simp only [Option.some.injEq, Prod.mk.injEq] at h
    obtain ⟨_, hr⟩ := h
    refine ⟨['"'], by rw [← hr]; rfl, ?_⟩
    intro c hc
    rcases List.mem_singleton.mp hc with rfl
    decide
  | case4 fuel hne =>
    intro b rest h
    simp [parseStrBody] at h
  | case5 fuel h1 h2 h3 h4 cs3 hhex hne ih =>
    intro b rest h
    simp only [parseStrBody] at h
    rw [if_pos hhex] at h
    cases hsb : parseStrBody fuel cs3 with
    | none => rw [hsb] at h; simp at h
    | some br =>
      rw [hsb] at h
      simp at h
      obtain ⟨hb, hr⟩ := h
      subst hr
      obtain ⟨pre, hp1, hp2⟩ := ih (show parseStrBody fuel cs3 = some (br.1, br.2) by rw [hsb])
      obtain ⟨⟨⟨e1, e2⟩, e3⟩, e4⟩ := by simpa [Bool.and_eq_true] using hhex
      refine ⟨'\\' :: 'u' :: h1 :: h2 :: h3 :: h4 :: pre, ?_, ?_⟩
      · simp only [List.cons_append]
        rw [← hp1]
      · intro c hc
        simp only [List.mem_cons] at hc
        rcases hc with rfl | rfl | rfl | rfl | rfl | rfl | hc2
        · decide
        · decide
        · exact isHexCh_ne_nl e1
        · exact isHexCh_ne_nl e2
        · exact isHexCh_ne_nl e3
        · exact isHexCh_ne_nl e4
        · exact hp2 c hc2
  | case6 fuel h1 h2 h3 h4 cs3 hhex hne =>
    intro b rest h
    simp only [parseStrBody] at h
    rw [if_neg hhex] at h
    simp at h
  | case7 fuel cs hshort hne =>
    intro b rest h
    rcases cs with _ | ⟨x1, _ | ⟨x2, _ | ⟨x3, _ | ⟨x4, cs4⟩⟩⟩⟩
    · simp [parseStrBody] at h
    · simp [parseStrBody] at h
    · simp [parseStrBody] at h
    · simp [parseStrBody] at h
    · exact (hshort x1 x2 x3 x4 cs4 rfl).elim
  | case8 fuel c cs hcu hesc hne ih =>
    intro b rest h
    simp only [parseStrBody] at h
    rw [if_neg hcu, if_pos hesc] at h
    cases hsb : parseStrBody fuel cs with
    | none => rw [hsb] at h; simp at h
    | some br =>
      rw [hsb] at h
      simp at h
      obtain ⟨hb, hr⟩ := h
      subst hr
      obtain ⟨pre, hp1, hp2⟩ := ih (show parseStrBody fuel cs = some (br.1, br.2) by rw [hsb])
      refine ⟨'\\' :: c :: pre, ?_, ?_⟩
      · simp only [List.cons_append]
        rw [← hp1]
      · intro x hx
        simp only [List.mem_cons] at hx
        rcases hx with rfl | rfl | hx2
        · decide
        · rcases hesc with rfl | rfl | rfl | rfl | rfl | rfl | rfl | rfl <;> decide
        · exact hp2 x hx2
  | case9 fuel c cs hcu hesc hne =>
    intro b rest h
    simp only [parseStrBody] at h
    rw [if_neg hcu, if_neg hesc] at h
    simp at h
  | case10 fuel c cs hq hb hctl =>
    intro b rest h
    simp only [parseStrBody] at h
    rw [if_neg hq, if_neg hb, if_pos hctl] at h
    simp at h
  | case11 fuel c cs hq hb hctl ih =>
    intro b rest h
    simp only [parseStrBody] at h
    rw [if_neg hq, if_neg hb, if_neg hctl] at h
    cases hsb : parseStrBody fuel cs with
    | none => rw [hsb] at h; simp at h
    | some br =>
      rw [hsb] at h
      simp at h
      obtain ⟨hbv, hr⟩ := h
      subst hr
      obtain ⟨pre, hp1, hp2⟩ := ih (show parseStrBody fuel cs = some (br.1, br.2) by rw [hsb])
      refine ⟨c :: pre, ?_, ?_⟩
      · simp only [List.cons_append]
        rw [← hp1]
      · intro x hx
        simp only [List.mem_cons] at hx
        rcases hx with rfl | hx2
        · intro he
          subst he
          exact hctl (by decide)
        · exact hp2 x hx2

/-- Joint safety of the three mutual parsers: the text a successful parse
consumes never places a backtick first on a line, so safety of the leftover
propagates to the whole input. -/
theorem parseSafe (fuel : Nat) :
    (∀ cs v rest, parseVal fuel cs = some (v, rest) →
      SafeAll rest → SafeAll cs) ∧
    (∀ cs l rest, parseArrRest fuel cs = some (l, rest) →
      SafeAll rest → SafeAll cs) ∧
    (∀ cs l rest, parseObjRest fuel cs = some (l, rest) →
      SafeAll rest → SafeAll cs) := by
  induction fuel with
  | zero =>
    refine ⟨?_, ?_, ?_⟩
    · intro cs v rest h; exact absurd h (by simp [parseVal])
    · intro cs l rest h; exact absurd h (by simp [parseArrRest])
    · intro cs l rest h; exact absurd h (by simp [parseObjRest])
  | succ fuel ih =>
    obtain ⟨ihv, iha, iho⟩ := ih
    refine ⟨?_, ?_, ?_⟩
    · intro cs v rest h hrest
      simp only [parseVal] at h
      apply safeAll_of_dropWhile
      split at h
      · next r heq =>
        rw [heq]
        obtain ⟨_, hr⟩ := by simpa using h
        subst hr
        exact safeAll_cons (by decide) (safeAll_cons (by decide)
          (safeAll_cons (by decide) (safeAll_cons (by decide) hrest)))
      · next r heq =>
        rw [heq]
        obtain ⟨_, hr⟩ := by simpa using h
        subst hr
        exact safeAll_cons (by decide) (safeAll_cons (by decide)
          (safeAll_cons (by decide) (safeAll_cons (by decide) hrest)))
      · next r heq =>
        rw [heq]
        obtain ⟨_, hr⟩ := by simpa using h
        subst hr
        exact safeAll_cons (by decide) (safeAll_cons (by decide)
          (safeAll_cons (by decide) (safeAll_cons (by decide)
            (safeAll_cons (by decide) hrest))))
      · next r heq =>
        rw [heq]
        cases hsb : parseStrBody fuel r with
        | none => rw [hsb] at h; simp at h
        | some br =>
          rw [hsb] at h
          obtain ⟨_, hr⟩ := by simpa using h
          obtain ⟨pre, hp1, hp2⟩ := parseStrBody_decomp fuel r
            (show parseStrBody fuel r = some (br.1, br.2) from hsb)
          rw [hp1, hr]
          exact safeAll_of_safeLow (by decide) (by decide) (by decide)
            (safeLow_append_nl_free hp2 (safeAll_safeLow hrest))
      · next r heq =>
        rw [heq]
        split at h
        · next r2 heq2 =>
          obtain ⟨_, hr⟩ := by simpa using h
          subst hr
          refine safeAll_cons (by decide) (safeAll_of_dropWhile ?_)
          rw [heq2]
          exact safeAll_cons (by decide) hrest
        · next =>
          cases har : parseArrRest fuel r with
          | none => rw [har] at h; simp at h
          | some lr =>
            rw [har] at h
            obtain ⟨_, hr⟩ := by simpa using h
            refine safeAll_cons (by decide)
              (iha r lr.1 lr.2 ?_ (hr ▸ hrest))
            rw [har]
      · next r heq =>
        rw [heq]
        split at h
        · next r2 heq2 =>
          obtain ⟨_, hr⟩ := by simpa using h
          subst hr
          refine safeAll_cons (by decide) (safeAll_of_dropWhile ?_)
          rw [heq2]
          exact safeAll_cons (by decide) hrest
        · next =>
          cases hor : parseObjRest fuel r with
          | none => rw [hor] at h; simp at h
          | some lr =>
            rw [hor] at h
            obtain ⟨_, hr⟩ := by simpa using h
            refine safeAll_cons (by decide)
              (iho r lr.1 lr.2 ?_ (hr ▸ hrest))
            rw [hor]
      · next c r heq hne1 hne2 hne3 hne4 hne5 hne6 =>
        split at h
        · next hcd =>
          cases hn : parseNum (cs.dropWhile jsonWs) with
          | none => rw [hn] at h; simp at h
          | some nr =>
            rw [hn] at h
            obtain ⟨_, hr⟩ := by simpa using h
            obtain ⟨p, hp1, hp2⟩ := parseNum_decomp
              (show parseNum (cs.dropWhile jsonWs) = some (nr.1, nr.2) from hn)
            rw [hp1, hr]
            exact safeAll_append hp2 hrest
        · next => simp at h
      · next heq => simp at h
    · intro cs l rest h hrest
      simp only [parseArrRest] at h
      cases hv : parseVal fuel cs with
      | none => rw [hv] at h; simp at h
      | some vr =>
        rw [hv] at h
        simp only [Option.some_bind] at h
        split at h
        · next r2 heq2 =>
          cases har : parseArrRest fuel r2 with
          | none => rw [har] at h; simp at h
          | some lr =>
            rw [har] at h
            obtain ⟨_, hr⟩ := by simpa using h
            refine ihv cs vr.1 vr.2 ?_ (safeAll_of_dropWhile ?_)
            · rw [hv]
            · rw [heq2]
              refine safeAll_cons (by decide) (iha r2 lr.1 lr.2 ?_ (hr ▸ hrest))
              rw [har]
        · next r2 heq2 =>
          obtain ⟨_, hr⟩ := by simpa using h
          subst hr
          refine ihv cs vr.1 vr.2 ?_ (safeAll_of_dropWhile ?_)
          · rw [hv]
          · rw [heq2]
            exact safeAll_cons (by decide) hrest
        · next => simp at h
    · intro cs l rest h hrest
      simp only [parseObjRest] at h
      apply safeAll_of_dropWhile
      split at h
      · next r heq =>
        rw [heq]
        cases hsb : parseStrBody fuel r with
        | none => rw [hsb] at h; simp at h
        | some kr =>
          rw [hsb] at h
          simp only [Option.some_bind] at h
          obtain ⟨pre, hp1, hp2⟩ := parseStrBody_decomp fuel r
            (show parseStrBody fuel r = some (kr.1, kr.2) from hsb)
          rw [hp1]
          refine safeAll_of_safeLow (by decide) (by decide) (by decide)
            (safeLow_append_nl_free hp2 (safeAll_safeLow
              (safeAll_of_dropWhile ?_)))
          split at h
          · next r2 heq2 =>
            rw [heq2]
            cases hv : parseVal fuel r2 with
            | none => rw [hv] at h; simp at h
            | some vr =>
              rw [hv] at h
              simp only [Option.some_bind] at h
              refine safeAll_cons (by decide)
                (ihv r2 vr.1 vr.2 ?_ (safeAll_of_dropWhile ?_))
              · rw [hv]
              · split at h
                · next r3 heq3 =>
                  cases hor : parseObjRest fuel r3 with
                  | none => rw [hor] at h; simp at h
                  | some lr =>
                    rw [hor] at h
                    obtain ⟨_, hr⟩ := by simpa using h
                    rw [heq3]
                    refine safeAll_cons (by decide)
                      (iho r3 lr.1 lr.2 ?_ (hr ▸ hrest))
                    rw [hor]
                · next r3 heq3 =>
                  obtain ⟨_, hr⟩ := by simpa using h
                  subst hr
                  rw [heq3]
                  exact safeAll_cons (by decide) hrest
                · next => simp at h
          · next => simp at h
      · next => simp at h

/-- Any text accepted by the JSON decoder is backtick-safe from every line
state. -/
theorem jsonLoadsChars_safe {cs : List Char} {v : J}
    (h : jsonLoadsChars cs = some v) : SafeAll cs := by
  unfold jsonLoadsChars at h
  split at h
  · next v' rest hp =>
    split at h
    · next hemp =>
      refine (parseSafe (2 * cs.length + 8)).1 cs v' rest hp (safeAll_ws_only ?_)
      simpa using hemp
    · next hemp => cases h
  · next => cases h

/-- A Python `split` never returns an empty list of parts. -/
theorem splitSep_ne_nil (sep : Char) (cs : List Char) : splitSep sep cs ≠ [] := by
  cases cs with
  | nil => simp [splitSep]
  | cons c cs =>
    show (match splitSep sep cs with
          | [] => [[c]]
          | h :: t => if c = sep then [] :: h :: t else (c :: h) :: t) ≠ []
    cases splitSep sep cs with
    | nil => simp
    | cons h t =>
      dsimp only
      split <;> simp

/-- Unfolding the newline split one character at a time. -/
theorem splitNl_cons {cs : List Char} {hd : List Char} {tl : List (List Char)}
    (he : splitNl cs = hd :: tl) (c : Char) :
    splitNl (c :: cs) =
      if c = '\n' then [] :: hd :: tl else (c :: hd) :: tl := by
  show (match splitSep '\n' cs with
        | [] => [[c]]
        | h :: t => if c = '\n' then [] :: h :: t else (c :: h) :: t) = _
  rw [show splitSep '\n' cs = hd :: tl from he]

/-- Splitting on newlines distributes over an explicit newline. -/
theorem splitNl_append (a b : List Char) :
    splitNl (a ++ '\n' :: b) = splitNl a ++ splitNl b := by
  induction a with
  | nil =>
    cases hb : splitNl b with
    | nil => exact absurd hb (splitSep_ne_nil '\n' b)
    | cons h t =>
      rw [List.nil_append, splitNl_cons hb '\n', if_pos rfl,
        show splitNl ([] : List Char) = [[]] from rfl]
      simp [hb]
  | cons c a ih =>
    cases ha : splitNl (a ++ '\n' :: b) with
    | nil => exact absurd ha (splitSep_ne_nil '\n' (a ++ '\n' :: b))
    | cons h t =>
      rw [List.cons_append, splitNl_cons ha c]
      cases ha2 : splitNl a with
      | nil => exact absurd ha2 (splitSep_ne_nil '\n' a)
      | cons h2 t2 =>
        rw [splitNl_cons ha2 c]
        have hkey : h :: t = h2 :: (t2 ++ splitNl b) := by
          rw [← ha, ih, ha2]
          rfl
        injection hkey with k1 k2
        by_cases hc : c = '\n'
        · rw [if_pos hc, if_pos hc, k1, k2]
          rfl
        · rw [if_neg hc, if_neg hc, k1, k2]
          rfl

/-- `"\n".join` undoes `split("\n")`. -/
theorem joinNl_splitNl (cs : List Char) : joinNl (splitNl cs) = cs := by
  induction cs with
  | nil => rfl
  | cons c cs ih =>
    cases he : splitNl cs with
    | nil => exact absurd he (splitSep_ne_nil '\n' cs)
    | cons h t =>
      rw [splitNl_cons he c]
      by_cases hc : c = '\n'
      · rw [if_pos hc]
        show [] ++ '\n' :: joinNl (h :: t) = c :: cs
        rw [List.nil_append, ← he, ih, hc]
      · rw [if_neg hc]
        cases t with
        | nil =>
          show c :: h = c :: cs
          rw [← ih, he]
          rfl
        | cons h2 t2 =>
          show (c :: h) ++ '\n' :: joinNl (h2 :: t2) = c :: cs
          rw [List.cons_append, ← ih, he]
          rfl

/-- A scan-safe text has no line whose first non-whitespace character is a
backtick; from the mid-line state this holds of every line but the first. -/
theorem noTick_lines (cs : List Char) : ∀ st, noTick st cs = true →
    (∀ l ∈ (splitNl cs).tail, (l.dropWhile isPyWs).head? ≠ some '`') ∧
    (st = true →
      ∀ l ∈ splitNl cs, (l.dropWhile isPyWs).head? ≠ some '`') := by
  induction cs with
  | nil =>
    intro st _
    refine ⟨?_, ?_⟩
    · intro l hl
      rw [show (splitNl ([] : List Char)).tail = [] from rfl] at hl
      exact absurd hl (List.not_mem_nil l)
    · intro _ l hl
      rw [show splitNl ([] : List Char) = [[]] from rfl] at hl
      rcases List.mem_singleton.mp hl with rfl
      simp
  | cons c cs ih =>
    intro st h
    rw [show noTick st (c :: cs) =
        (if st && (c == '`') then false
         else noTick ((c == '\n') || (st && isPyWs c)) cs) from rfl] at h
    have hnf : (st && (c == '`')) ≠ true := by
      intro hcontra
      rw [if_pos hcontra] at h
      exact Bool.false_ne_true h
    rw [if_neg hnf] at h
    cases hsp : splitNl cs with
    | nil => exact absurd hsp (splitSep_ne_nil '\n' cs)
    | cons hd tl =>
      by_cases hcn : c = '\n'
      · have h' : noTick true cs = true := by
          rw [show ((c == '\n') || (st && isPyWs c)) = true by simp [hcn]] at h
          exact h
        obtain ⟨ht, hall⟩ := ih true h'
        have hs : splitNl (c :: cs) = [] :: hd :: tl := by
          rw [splitNl_cons hsp c, if_pos hcn]
        refine ⟨?_, ?_⟩
        · rw [hs]
          intro l hl
          exact hall rfl l (by rw [hsp]; exact hl)
        · intro _
          rw [hs]
          intro l hl
          rcases List.mem_cons.mp hl with rfl | hl2
          · simp
          · exact hall rfl l (by rw [hsp]; exact hl2)
      · have h' : noTick (st && isPyWs c) cs = true := by
          rw [show ((c == '\n') || (st && isPyWs c)) = (st && isPyWs c) by
            simp [hcn]] at h
          exact h
        obtain ⟨ht, hall⟩ := ih (st && isPyWs c) h'
        have hs : splitNl (c :: cs) = (c :: hd) :: tl := by
          rw [splitNl_cons hsp c, if_neg hcn]
        refine ⟨?_, ?_⟩
        · rw [hs]
          intro l hl
          exact ht l (by rw [hsp]; exact hl)
        · intro hst
          rw [hs]
          intro l hl
          rcases List.mem_cons.mp hl with rfl | hl2
          · by_cases hw : isPyWs c = true
            · rw [List.dropWhile_cons_of_pos hw]
              exact hall (by rw [hst, hw]; rfl) hd
                (by rw [hsp]; exact List.mem_cons_self hd tl)
            · rw [List.dropWhile_cons_of_neg (by simpa using hw)]
              have hcg : c ≠ '`' := by
                intro he
                exact hnf (by rw [hst, he]; decide)
              simp [hcg]
          · exact ht l (by rw [hsp]; exact hl2)

/-- Every list is its `dropWhile` preceded by the dropped part. -/
theorem dropWhile_append_eq (p : Char → Bool) (r : List Char) :
    ∃ t, r = t ++ r.dropWhile p := by
  induction r with
  | nil => exact ⟨[], rfl⟩
  | cons c r ih =>
    by_cases hp : p c = true
    · obtain ⟨t, ht⟩ := ih
      rw [List.dropWhile_cons_of_pos hp]
      exact ⟨c :: t, by rw [List.cons_append, ← ht]⟩
    · rw [List.dropWhile_cons_of_neg (by simpa using hp)]
      exact ⟨[], rfl⟩

/-- The first character of a stripped line is the first non-whitespace
character of the line. -/
theorem pyStrip_head {l : List Char} {c : Char} {cs : List Char}
    (h : pyStripChars l = c :: cs) : (l.dropWhile isPyWs).head? = some c := by
  obtain ⟨t, ht⟩ := dropWhile_append_eq isPyWs (l.dropWhile isPyWs).reverse
  have hkey : l.dropWhile isPyWs = pyStripChars l ++ t.reverse := by
    conv_lhs => rw [← List.reverse_reverse (l.dropWhile isPyWs)]
    conv_lhs => rw [ht]
    rw [List.reverse_append]
    rfl
  rw [hkey, h]
  rfl

/-- Model of the fence-line test `l.strip().startswith("import-free")`:
a line whose stripped form begins with three backticks. -/
def isFenceLine (l : List Char) : Bool :=
  decide ((pyStripChars l).take 3 = ['`', '`', '`'])

/-- A fence line starts, after leading whitespace, with a backtick. -/
theorem fence_head {l : List Char} (h : isFenceLine l = true) :
    (l.dropWhile isPyWs).head? = some '`' := by
  have h2 : (pyStripChars l).take 3 = ['`', '`', '`'] := by
    simpa [isFenceLine] using h
  cases he : pyStripChars l with
  | nil =>
    rw [he] at h2
    simp at h2
  | cons c cs =>
    rw [he] at h2
    have h3 : c :: cs.take 2 = ['`', '`', '`'] := h2
    injection h3 with hc _
    rw [hc] at he
    exact pyStrip_head he

/-- Model of the fence-stripping prefix of `parse_script_json`
(src/streamlit_app.py lines 171-176): strip the text; if it starts with a
triple backtick, drop every line whose stripped form starts with one and
rejoin with newlines. -/
def stripCodeFencesChars (cs : List Char) : List Char :=
  if (pyStripChars cs).take 3 = ['`', '`', '`'] then
    joinNl ((splitNl (pyStripChars cs)).filter fun l => !(isFenceLine l))
  else pyStripChars cs

/-- Model of `parse_script_json` (src/streamlit_app.py lines 162-178):
fence stripping followed by `json.loads`; `none` models the raise. -/
def parse_script_json (script_text : String) : Option J :=
  jsonLoadsChars (stripCodeFencesChars script_text.data)

/-- The markdown-fenced wrapping of a script body: a fence-open line
tagged `json`, the body, and a closing fence line. -/
def fenceWrap (s : String) : String :=
  "```json\n" ++ s ++ "\n```"

/-- Stripping is the identity on a text with non-whitespace first and last
characters. -/
theorem pyStrip_id_of_ends {cs : List Char} (c : Char) (m : List Char) (d : Char)
    (hcs : cs = c :: (m ++ [d])) (hc : isPyWs c = false) (hd : isPyWs d = false) :
    pyStripChars cs = cs := by
  subst hcs
  show (((c :: (m ++ [d])).dropWhile isPyWs).reverse.dropWhile isPyWs).reverse = _
  rw [List.dropWhile_cons_of_neg (by simp [hc])]
  have hrev : (c :: (m ++ [d])).reverse = d :: (m.reverse ++ [c]) := by simp
  rw [hrev, List.dropWhile_cons_of_neg (by simp [hd]), ← hrev,
    List.reverse_reverse]

/-- C8 (fence-stripping round-trip): for every script string s that is a
valid JSON array, parsing the markdown-fenced wrapping of s (a leading
fence line tagged json, the body s, and a trailing closing fence line)
with parse_script_json yields exactly the same value as parsing the
unwrapped s directly with the JSON parser. -/
theorem c8_fence_roundtrip (s : String) (a : List J)
    (h : jsonLoads s = some (J.arr a)) :
    parse_script_json (fenceWrap s) = jsonLoads s := by
  have hdata : (fenceWrap s).data =
      ['`', '`', '`', 'j', 's', 'o', 'n', '\n'] ++ s.data ++
        ['\n', '`', '`', '`'] := by
    show ("```json\n" ++ s ++ "\n```").data = _
    rw [String.data_append, String.data_append]
  have hstrip : pyStripChars (fenceWrap s).data = (fenceWrap s).data := by
    refine pyStrip_id_of_ends '`'
      (['`', '`', 'j', 's', 'o', 'n', '\n'] ++ s.data ++ ['\n', '`', '`'])
      '`' ?_ (by decide) (by decide)
    rw [hdata]
    simp
  have hsafe : SafeAll s.data :=
    jsonLoadsChars_safe (show jsonLoadsChars s.data = some (J.arr a) from h)
  have hlines := (noTick_lines s.data true (hsafe true)).2 rfl
  have hall : ∀ l ∈ splitNl s.data, (!(isFenceLine l)) = true := by
    intro l hl
    by_cases hf : isFenceLine l = true
    · exact absurd (fence_head hf) (hlines l hl)
    · simp only [Bool.not_eq_true] at hf
      rw [hf]
      rfl
  have hmodel : stripCodeFencesChars (fenceWrap s).data = s.data := by
    unfold stripCodeFencesChars
    rw [hstrip, hdata]
    rw [if_pos (by rfl)]
    rw [show ['`', '`', '`', 'j', 's', 'o', 'n', '\n'] ++ s.data ++
          ['\n', '`', '`', '`'] =
        ['`', '`', '`', 'j', 's', 'o', 'n'] ++
          '\n' :: (s.data ++ '\n' :: ['`', '`', '`']) from by simp]
    rw [splitNl_append, splitNl_append]
    rw [show splitNl ['`', '`', '`', 'j', 's', 'o', 'n'] =
        [['`', '`', '`', 'j', 's', 'o', 'n']] from rfl]
    rw [show splitNl ['`', '`', '`'] = [['`', '`', '`']] from rfl]
    rw [List.filter_append, List.filter_append]
    rw [List.filter_eq_self.mpr hall]
    rw [show List.filter (fun l => !(isFenceLine l))
        [['`', '`', '`', 'j', 's', 'o', 'n']] = [] from by rfl]
    rw [show List.filter (fun l => !(isFenceLine l))
        [['`', '`', '`']] = [] from by rfl]
    rw [List.nil_append, List.append_nil]
    exact joinNl_splitNl s.data
  show jsonLoadsChars (stripCodeFencesChars (fenceWrap s).data) = jsonLoads s
  rw [hmodel]
  rfl

/-- The fence round-trip at the concrete one-element array text. -/
theorem c8_fence_roundtrip_witness :
    parse_script_json (fenceWrap (String.mk ['[', '1', ']'])) =
      jsonLoads (String.mk ['[', '1', ']']) :=
  c8_fence_roundtrip (String.mk ['[', '1', ']'])
    [J.num (String.mk ['1'])] (by rfl)

end Podcast
